import Mathlib

/-!
Verification development for the sharedb-storage-expo-sqlite storage layer.

This file gives a shallow embedding, in Lean 4, of the storage-coordination
code of the repository:

- the Table-Per-Collection layout strategy (CollectionPerTableStrategy):
  field-level / whole-payload encryption, batched transactional writes with
  inventory upserts, the relational inventory table;
- the Shared-Table layout strategy (DefaultSchemaStrategy): whole-payload
  encryption, batched writes, single/bulk reads, the JSON inventory document
  mutated by read-modify-write;
- the storage coordinator (SqliteStorage): lifecycle guard, store-name
  resolution, error-swallowing single reads, bulk reads;
- the connection pool health computation (StandardSQLiteConnectionPool).

Modelling conventions:
- JSON scalar values are modelled by JsonVal; a parsed JSON object is an
  association list with string keys.  JavaScript object update/delete is
  modelled by setKV / eraseKV, which preserve insertion order exactly as
  JS objects do.
- JSON.stringify / JSON.parse and the user-supplied encryption and
  decryption callbacks always occur composed in the source
  (callback(JSON.stringify(v)) and JSON.parse(callback(s))), so the model
  carries the composites: an encryption callback maps a value (or a whole
  payload) to a ciphertext string, a decryption callback maps a ciphertext
  string back.
- SQLite statement failures are modelled by failure-injection fields on the
  database states (failIds for per-statement INSERT failures, connFail for
  a broken connection failing every statement/query).
- JavaScript truthiness is modelled faithfully where the source branches on
  it: an empty string, the number 0, false and null are falsy; an object
  (even an empty one) is truthy.
-/

/-- Error kinds surfaced by the storage layer: statement/connection failure,
a record missing its required collection tag, an invalid inventory operation
name, and the coordinator's not-ready state error. -/
inductive DbErr where
  | ioError
  | malformedInput
  | invalidArg
  | notReady
deriving DecidableEq

/-- An atomic JSON value appearing in a record payload. -/
inductive JsonVal where
  | str : String → JsonVal
  | num : Int → JsonVal
  | bool : Bool → JsonVal
  | null : JsonVal
deriving DecidableEq

/-- JavaScript truthiness of a JSON value: "" and 0 and false and null are
falsy, everything else is truthy. -/
def JsonVal.truthy : JsonVal → Bool
  | .str s => s ≠ ""
  | .num n => n ≠ 0
  | .bool b => b
  | .null => false

/-- A parsed JSON object: an insertion-ordered association list from field
names to values, as a JavaScript object is. -/
abbrev Payload := List (String × JsonVal)

/-- Lookup of a key in an association list (JS property read). -/
def lookupKV {κ α : Type} [DecidableEq κ] (k : κ) : List (κ × α) → Option α
  | [] => none
  | (k2, v) :: rest => if k2 = k then some v else lookupKV k rest

/-- Property write obj[k] = v on a JS object: replaces the value in place
when the key exists, otherwise appends the key at the end. -/
def setKV {κ α : Type} [DecidableEq κ] (k : κ) (v : α) : List (κ × α) → List (κ × α)
  | [] => [(k, v)]
  | (k2, v2) :: rest => if k2 = k then (k2, v) :: rest else (k2, v2) :: setKV k v rest

/-- Property delete on a JS object (keys are unique in objects; the model
removes every occurrence). -/
def eraseKV {κ α : Type} [DecidableEq κ] (k : κ) : List (κ × α) → List (κ × α)
  | [] => []
  | (k2, v2) :: rest => if k2 = k then eraseKV k rest else (k2, v2) :: eraseKV k rest

/-!
Encodable instances, used only to build concrete injective serialization /
encryption callback pairs for witnesses and counterexamples.
-/

instance : Encodable Char :=
  Encodable.ofLeftInverse Char.toNat Char.ofNat Char.ofNat_toNat

instance : Encodable String :=
  Encodable.ofLeftInverse String.data String.mk (fun s => by cases s; rfl)

/-- Injection of JsonVal into a sum of encodable types. -/
def JsonVal.toSum : JsonVal → (String ⊕ Int ⊕ Bool ⊕ Unit)
  | .str s => Sum.inl s
  | .num n => Sum.inr (Sum.inl n)
  | .bool b => Sum.inr (Sum.inr (Sum.inl b))
  | .null => Sum.inr (Sum.inr (Sum.inr ()))

/-- Inverse of JsonVal.toSum. -/
def JsonVal.ofSum : (String ⊕ Int ⊕ Bool ⊕ Unit) → JsonVal
  | Sum.inl s => .str s
  | Sum.inr (Sum.inl n) => .num n
  | Sum.inr (Sum.inr (Sum.inl b)) => .bool b
  | Sum.inr (Sum.inr (Sum.inr _)) => .null

instance : Encodable JsonVal :=
  Encodable.ofLeftInverse JsonVal.toSum JsonVal.ofSum (fun v => by cases v <;> rfl)

/-!
Record shapes.  A stored row's data column holds a serialized JSON object;
the parsed form of every object shape the strategies read or write is
captured by EncRecord: plain records are written as (id, payload), records
under whole-payload encryption as (id, collection, encrypted_payload), and
records under field-level encryption as
(id, collection, payload, encrypted_fields).
-/

/-- Parsed form of a record object handled by the layout strategies. -/
structure EncRecord where
  id : String
  collection : Option String := none
  payload : Option Payload := none
  encrypted_payload : Option String := none
  encrypted_fields : Option (List (String × String)) := none
deriving DecidableEq

/-- JS truthiness of a possibly-absent string field: absent (undefined) and
the empty string are falsy. -/
def truthyStr : Option String → Bool
  | some s => s ≠ ""
  | none => false

/-- Two parsed JSON objects are map-equivalent when every field lookup
agrees: same field set and same value at every field, irrespective of the
insertion order JS objects additionally carry. -/
def mapEquiv (xs ys : Payload) : Prop := ∀ k, lookupKV k xs = lookupKV k ys

/-- The user-supplied encryption callback, as the code uses it: composed
with JSON.stringify.  onVal is callback(JSON.stringify(v)) for one field
value, onPayload is callback(JSON.stringify(payload)) for a whole payload. -/
structure EncCallback where
  onVal : JsonVal → String
  onPayload : Payload → String

/-- The user-supplied decryption callback composed with JSON.parse. -/
structure DecCallback where
  onVal : String → JsonVal
  onPayload : String → Payload

/-- Per-collection configuration of the Table-Per-Collection strategy. -/
structure CollectionCfg where
  indexes : List String := []
  encryptedFields : List String := []
deriving DecidableEq

instance : Inhabited CollectionCfg := ⟨{}⟩

/-- Configuration and in-memory state of a CollectionPerTableStrategy
instance. -/
structure CptStrategy where
  useEncryption : Bool := false
  encryptionCallback : Option EncCallback := none
  decryptionCallback : Option DecCallback := none
  collectionConfig : List (String × CollectionCfg) := []
  disableTransactions : Bool := false
  createdTables : List String := []

/-- One step of the field-level encryption loop: when the named field is
present in the payload it is removed and its ciphertext recorded. -/
def encFieldStep (cb : EncCallback) (acc : Payload × List (String × String))
    (f : String) : Payload × List (String × String) :=
  match lookupKV f acc.1 with
  | some v => (eraseKV f acc.1, acc.2 ++ [(f, cb.onVal v)])
  | none => acc

/-- CollectionPerTableStrategy.prototype.encryptRecordForCollection.
Disabled encryption (flag off or callback absent) passes the record through
unchanged.  With an empty encrypted-field list the whole payload is replaced
by a single encrypted_payload ciphertext; otherwise each present named field
is moved into the encrypted_fields map. -/
def encryptRecordForCollection (s : CptStrategy) (r : EncRecord)
    (col : String) : EncRecord :=
  match s.useEncryption, s.encryptionCallback with
  | true, some cb =>
    let cfg := (lookupKV col s.collectionConfig).getD {}
    if cfg.encryptedFields = [] then
      { id := r.id, collection := some col,
        encrypted_payload := some (cb.onPayload (r.payload.getD [])) }
    else
      let res := cfg.encryptedFields.foldl (encFieldStep cb) (r.payload.getD [], [])
      { id := r.id, collection := some col, payload := some res.1,
        encrypted_fields := some res.2 }
  | _, _ => r

/-- CollectionPerTableStrategy.prototype.decryptRecordForCollection.
The encrypted_payload branch is guarded by JS truthiness (an empty
ciphertext string is falsy and is NOT decrypted); the encrypted_fields
branch is taken whenever the field is present, an empty map being truthy. -/
def decryptRecordForCollection (s : CptStrategy) (r : EncRecord)
    (col : String) : EncRecord :=
  match s.useEncryption, s.decryptionCallback with
  | true, some cb =>
    if truthyStr r.encrypted_payload then
      { id := r.id, collection := some col,
        payload := some (cb.onPayload (r.encrypted_payload.getD "")) }
    else if r.encrypted_fields.isSome then
      { id := r.id, collection := some col,
        payload := some ((r.encrypted_fields.getD []).foldl
          (fun acc e => setKV e.1 (cb.onVal e.2) acc) (r.payload.getD [])) }
    else r
  | _, _ => r

/-!
Table-Per-Collection strategy: physical state and operations.
-/

/-- One row of the sharedb_inventory table. -/
structure InvRow where
  version : JsonVal
  updated_at : Nat
deriving DecidableEq

/-- Physical state of a database laid out by the Table-Per-Collection
strategy: the per-collection tables (keyed by physical table name), the
sharedb_meta table, and the sharedb_inventory table keyed by
(collection, doc_id).  failIds injects per-statement INSERT failures for
the row whose id is listed; connFail models a broken connection failing
every statement. -/
structure CptDb where
  tables : List (String × List (String × EncRecord)) := []
  metaTbl : List (String × Payload) := []
  invTbl : List ((String × String) × InvRow) := []
  failIds : List String := []
  connFail : Bool := false
deriving DecidableEq

/-- CollectionPerTableStrategy.prototype.getTableName: reserved names map to
the sharedb_-prefixed system tables, any other collection name is sanitized
by replacing characters outside [a-zA-Z0-9_] with underscores. -/
def getTableName (collection : String) : String :=
  if collection = "__meta__" then "sharedb_meta"
  else if collection = "__inventory__" then "sharedb_inventory"
  else String.mk (collection.data.map (fun c => if c.isAlphanum || c = '_' then c else '_'))

/-- The version recorded in the inventory for a written record:
rec.payload && rec.payload.v || 1, evaluated on the record as written
(i.e. after encryption).  A falsy or absent v defaults to 1. -/
def versionOf (r : EncRecord) : JsonVal :=
  match r.payload with
  | some p =>
    match lookupKV "v" p with
    | some v => if v.truthy then v else .num 1
    | none => .num 1
  | none => .num 1

/-- The collection tag of a doc record, as writeRecords reads it:
record.payload.collection, required truthy.  A missing payload, a missing
field, or a falsy value is a fatal input error; the claims only exercise
string-valued tags, so a truthy non-string tag (which JS would coerce) is
also mapped to the input error. -/
def recCollection (r : EncRecord) : Option String :=
  match r.payload with
  | some p =>
    match lookupKV "collection" p with
    | some (.str c) => if c = "" then none else some c
    | _ => none
  | none => none

/-- Appends a record to its collection's group, preserving the first-seen
order of collections and the record order inside a collection, as the JS
grouping loop does. -/
def addToGroup (c : String) (r : EncRecord)
    (g : List (String × List EncRecord)) : List (String × List EncRecord) :=
  match lookupKV c g with
  | some l => setKV c (l ++ [r]) g
  | none => g ++ [(c, [r])]

/-- One step of the grouping loop: a record with a collection tag joins its
group, a record without one is the fatal input error. -/
def cptGroupStep (g : List (String × List EncRecord)) (r : EncRecord) :
    Except DbErr (List (String × List EncRecord)) :=
  match recCollection r with
  | some c => .ok (addToGroup c r g)
  | none => .error .malformedInput

/-- The grouping loop of writeRecords: group doc records by the collection
declared inside each record's payload, failing on the first record whose
collection tag is missing. -/
def cptGroupDocs (rs : List EncRecord) : Except DbErr (List (String × List EncRecord)) :=
  rs.foldlM cptGroupStep []

/-- A batch of records grouped by kind, as passed to writeRecords
(recordsByType.docs and recordsByType.meta, normalized to arrays). -/
structure Batch where
  docs : List EncRecord := []
  meta : List EncRecord := []

/-- CollectionPerTableStrategy.prototype.ensureCollectionTable +
createCollectionTable: memoized on the createdTables registry; the
CREATE TABLE IF NOT EXISTS leaves an existing physical table untouched.
Index creation has no observable effect on the modelled state. -/
def ensureCollectionTable (cache : List String)
    (tables : List (String × List (String × EncRecord))) (col : String) :
    List String × List (String × List (String × EncRecord)) :=
  if col ∈ cache then (cache, tables)
  else
    (col :: cache,
     if (lookupKV (getTableName col) tables).isSome then tables
     else setKV (getTableName col) [] tables)

/-- INSERT OR REPLACE of one encrypted doc row plus its inventory upsert.
The row insert fails when the connection is broken or the row id carries an
injected failure; a failed statement has no effect.  Returns the new state
and whether any statement failed. -/
def cptInsertDoc (db : CptDb) (col : String) (r : EncRecord) (now : Nat) :
    CptDb × Bool :=
  if db.connFail || r.id ∈ db.failIds then (db, true)
  else
    let tbl := getTableName col
    let db1 := { db with
      tables := setKV tbl (setKV r.id r ((lookupKV tbl db.tables).getD [])) db.tables }
    ({ db1 with invTbl := setKV (col, r.id) ⟨versionOf r, now⟩ db1.invTbl }, false)

/-- One doc-record write inside a collection group: encrypt the record and
run its row insert plus inventory upsert. -/
def cptWriteDocStep (s : CptStrategy) (c : String) (now : Nat)
    (acc : CptDb × List String × Bool) (r : EncRecord) : CptDb × List String × Bool :=
  let rec2 := encryptRecordForCollection s r c
  let ins := cptInsertDoc acc.1 c rec2 now
  (ins.1, acc.2.1, acc.2.2 || ins.2)

/-- Writes of one collection group: ensure the table, then for each record
insert the encrypted row and upsert its inventory entry. -/
def cptWriteGroup (s : CptStrategy) (st : CptDb × List String × Bool)
    (grp : String × List EncRecord) (now : Nat) : CptDb × List String × Bool :=
  let ens := ensureCollectionTable st.2.1 st.1.tables grp.1
  grp.2.foldl (cptWriteDocStep s grp.1 now)
    ({ st.1 with tables := ens.2 }, ens.1, st.2.2)

/-- INSERT OR REPLACE of one meta record into sharedb_meta (meta records are
stored as JSON.stringify(record.payload) and never encrypted). -/
def cptInsertMeta (db : CptDb) (r : EncRecord) : CptDb × Bool :=
  if db.connFail || r.id ∈ db.failIds then (db, true)
  else ({ db with metaTbl := setKV r.id (r.payload.getD []) db.metaTbl }, false)

/-- One meta-record write statement of the batch. -/
def cptWriteMetaStep (acc : CptDb × Bool) (r : EncRecord) : CptDb × Bool :=
  let ins := cptInsertMeta acc.1 r
  (ins.1, acc.2 || ins.2)

/-- The body of writeRecords: group the doc records (fatal input error on a
record without a collection tag, before any statement runs), then apply the
doc writes with their inventory upserts and the meta writes.  Returns the
mutated state, the updated createdTables registry, and the error if any
statement failed. -/
def cptWriteBody (s : CptStrategy) (db : CptDb) (b : Batch) (now : Nat) :
    CptDb × List String × Option DbErr :=
  match cptGroupDocs b.docs with
  | .error e => (db, s.createdTables, some e)
  | .ok groups =>
    let w := groups.foldl (fun st grp => cptWriteGroup s st grp now)
      (db, s.createdTables, false)
    let m := b.meta.foldl cptWriteMetaStep (w.1, w.2.2)
    (m.1, w.2.1, if m.2 then some .ioError else none)

/-- CollectionPerTableStrategy.prototype.writeRecords.  Unless transactions
are disabled, the whole batch body runs inside one db.transaction
(implemented by the adapter as BEGIN TRANSACTION / ROLLBACK on body error /
COMMIT on success): on any failure the transaction rolls back, restoring
the database state, while the in-memory createdTables registry is not
transactional and keeps its additions; on success it commits.  With
disableTransactions set, the body runs directly and partial effects of a
failed batch persist. -/
def cptWriteRecords (s : CptStrategy) (db : CptDb) (b : Batch) (now : Nat) :
    CptDb × List String × Option DbErr :=
  if s.disableTransactions then cptWriteBody s db b now
  else
    let res := cptWriteBody s db b now
    match res.2.2 with
    | none => res
    | some e => (db, res.2.1, some e)

/-- Inventory document payload shape ({collections: {...}}): a map from
collection name to a map from doc id to version. -/
structure InvDoc where
  collections : List (String × List (String × JsonVal)) := []
deriving DecidableEq

/-- Result object passed to inventory callbacks: {id: 'inventory', payload}. -/
structure CptInvResult where
  id : String
  payload : InvDoc
deriving DecidableEq

/-- CollectionPerTableStrategy.prototype.initializeInventory: performs no
database access at all (the table was created by initializeSchema) and
returns a fresh empty inventory structure regardless of the stored rows. -/
def cptInitializeInventory (db : CptDb) : Except DbErr CptInvResult :=
  .ok ⟨"inventory", {}⟩

/-- CollectionPerTableStrategy.prototype.readInventory: folds the inventory
table rows into the nested {collections: {collection: {docId: version}}}
shape. -/
def cptReadInventory (db : CptDb) : Except DbErr CptInvResult :=
  if db.connFail then .error .ioError
  else
    .ok ⟨"inventory",
      ⟨db.invTbl.foldl
        (fun acc row =>
          setKV row.1.1 (setKV row.1.2 row.2.version ((lookupKV row.1.1 acc).getD []))
            acc)
        []⟩⟩

/-- CollectionPerTableStrategy.prototype.updateInventoryItem: add/update
upsert the row, remove deletes it, and any other operation name fails with
an invalid-argument error without touching the table. -/
def cptUpdateInventoryItem (db : CptDb) (collection docId : String)
    (version : JsonVal) (operation : String) (now : Nat) : CptDb × Option DbErr :=
  if operation = "add" || operation = "update" then
    if db.connFail then (db, some .ioError)
    else ({ db with invTbl := setKV (collection, docId) ⟨version, now⟩ db.invTbl }, none)
  else if operation = "remove" then
    if db.connFail then (db, some .ioError)
    else ({ db with invTbl := eraseKV (collection, docId) db.invTbl }, none)
  else (db, some .invalidArg)

/-!
Shared-Table strategy (DefaultSchemaStrategy): physical state and
operations.
-/

/-- Parsed content of a meta-table data column: either a generic payload
document (written by writeRecords for meta records) or the inventory JSON
document {collections: ...} maintained by initializeInventory /
updateInventoryItem. -/
inductive MetaVal where
  | pl : Payload → MetaVal
  | inv : InvDoc → MetaVal
deriving DecidableEq

/-- Physical state of a database laid out by the Shared-Table strategy: one
docs table and one meta table, both (id, data).  Failure injection as in
CptDb. -/
structure DefDb where
  docs : List (String × EncRecord) := []
  meta : List (String × MetaVal) := []
  failIds : List String := []
  connFail : Bool := false
deriving DecidableEq

/-- Configuration of a DefaultSchemaStrategy instance. -/
structure DefStrategy where
  useEncryption : Bool := false
  encryptionCallback : Option EncCallback := none
  decryptionCallback : Option DecCallback := none

/-- DefaultSchemaStrategy.prototype.maybeEncryptRecord: with encryption
enabled and a callback present, the whole payload is replaced by a single
encrypted_payload ciphertext; otherwise the record passes through. -/
def maybeEncryptRecord (s : DefStrategy) (r : EncRecord) : EncRecord :=
  match s.useEncryption, s.encryptionCallback with
  | true, some cb =>
    { id := r.id, encrypted_payload := some (cb.onPayload (r.payload.getD [])) }
  | _, _ => r

/-- DefaultSchemaStrategy.prototype.maybeDecryptRecord: decrypts only when
encryption is enabled, a callback is present and encrypted_payload is
truthy (an empty ciphertext string is falsy and passes through). -/
def maybeDecryptRecord (s : DefStrategy) (r : EncRecord) : EncRecord :=
  match s.useEncryption, s.decryptionCallback, truthyStr r.encrypted_payload with
  | true, some cb, true =>
    { id := r.id, payload := some (cb.onPayload (r.encrypted_payload.getD "")) }
  | _, _, _ => r

/-- INSERT OR REPLACE of one (already maybe-encrypted) doc row in the docs
table; a failed statement has no effect. -/
def defInsertDoc (db : DefDb) (r : EncRecord) : DefDb × Bool :=
  if db.connFail || r.id ∈ db.failIds then (db, true)
  else ({ db with docs := setKV r.id r db.docs }, false)

/-- INSERT OR REPLACE of one meta record (stored unencrypted as its payload). -/
def defInsertMeta (db : DefDb) (r : EncRecord) : DefDb × Bool :=
  if db.connFail || r.id ∈ db.failIds then (db, true)
  else ({ db with meta := setKV r.id (.pl (r.payload.getD [])) db.meta }, false)

/-- One doc-record write statement of DefaultSchemaStrategy.writeRecords:
the record is maybe-encrypted and inserted into the shared docs table.
There is NO transaction wrapper and NO inventory update in this strategy;
each statement succeeds or fails on its own (Promise.all), so effects of
the succeeding statements persist even when the batch reports an error. -/
def defWriteDocStep (s : DefStrategy) (acc : DefDb × Bool) (r : EncRecord) :
    DefDb × Bool :=
  let ins := defInsertDoc acc.1 (maybeEncryptRecord s r)
  (ins.1, acc.2 || ins.2)

/-- One meta-record write statement of the batch. -/
def defWriteMetaStep (acc : DefDb × Bool) (r : EncRecord) : DefDb × Bool :=
  let ins := defInsertMeta acc.1 r
  (ins.1, acc.2 || ins.2)

/-- DefaultSchemaStrategy.prototype.writeRecords (continued): folds the doc
and meta statements over the state. -/
def defWriteRecords (s : DefStrategy) (db : DefDb) (b : Batch) : DefDb × Option DbErr :=
  let w := b.docs.foldl (defWriteDocStep s) (db, false)
  let m := b.meta.foldl defWriteMetaStep w
  (m.1, if m.2 then some .ioError else none)

/-- The decryption step applied to a docs row by readRecord, readAllRecords
and readRecordsBulk alike: decrypt only when the strategy uses encryption
and the row carries a truthy encrypted_payload. -/
def decStep (s : DefStrategy) (r : EncRecord) : EncRecord :=
  if s.useEncryption && truthyStr r.encrypted_payload then maybeDecryptRecord s r
  else r

/-- DefaultSchemaStrategy.prototype.readRecord restricted to the docs table:
a missing row is a null result, never an error. -/
def defReadDoc (s : DefStrategy) (db : DefDb) (id : String) :
    Except DbErr (Option EncRecord) :=
  if db.connFail then .error .ioError
  else
    match lookupKV id db.docs with
    | none => .ok none
    | some r => .ok (some (decStep s r))

/-- A row as parsed by a read: a docs-table record or a meta-table document. -/
inductive ParsedRow where
  | record : EncRecord → ParsedRow
  | metav : MetaVal → ParsedRow
deriving DecidableEq

/-- Record kind, resolved by the coordinator from the store name. -/
inductive RecKind where
  | docs
  | meta
deriving DecidableEq

/-- DefaultSchemaStrategy.prototype.readRecord: reads from the meta or docs
table according to the kind. -/
def defReadRecord (s : DefStrategy) (db : DefDb) (k : RecKind) (id : String) :
    Except DbErr (Option ParsedRow) :=
  match k with
  | .meta =>
    if db.connFail then .error .ioError
    else .ok ((lookupKV id db.meta).map .metav)
  | .docs => (defReadDoc s db id).map (fun o => o.map .record)

/-- The payload field of a bulk-read result entry: record.payload when the
parsed (and maybe decrypted) record has one, otherwise the record object
itself (record.payload || record); for meta rows the parsed document.
Stored meta payloads carrying a literal top-level "payload" field are
outside the modelled store shapes. -/
inductive OutPayload where
  | pl : Payload → OutPayload
  | whole : EncRecord → OutPayload
  | metaDoc : MetaVal → OutPayload
deriving DecidableEq

/-- One entry of a readRecordsBulk / readAllRecords result:
{id: row.id, payload: record.payload || record}. -/
structure OutRec where
  id : String
  payload : OutPayload
deriving DecidableEq

/-- The result entry built from a (maybe decrypted) docs record. -/
def outOfRec (r : EncRecord) : OutRec :=
  ⟨r.id, match r.payload with
         | some p => .pl p
         | none => .whole r⟩

/-- DefaultSchemaStrategy.prototype.readRecordsBulk: an empty id list
short-circuits to an empty result before any query; otherwise one
SELECT ... WHERE id IN (...) returns the matching rows in table order, each
parsed, maybe decrypted, and wrapped as {id, payload: record.payload || record}. -/
def defReadRecordsBulk (s : DefStrategy) (db : DefDb) (k : RecKind)
    (ids : List String) : Except DbErr (List OutRec) :=
  if ids.isEmpty then .ok []
  else if db.connFail then .error .ioError
  else
    match k with
    | .meta =>
      .ok ((db.meta.filter (fun e => ids.contains e.1)).map
        (fun e => ⟨e.1, .metaDoc e.2⟩))
    | .docs =>
      .ok ((db.docs.filter (fun e => ids.contains e.1)).map
        (fun e =>
          let r := decStep s e.2
          ⟨e.1, match r.payload with
                | some p => .pl p
                | none => .whole r⟩))

/-- DefaultSchemaStrategy.prototype.readAllRecords: scans the whole table. -/
def defReadAllRecords (s : DefStrategy) (db : DefDb) (k : RecKind) :
    Except DbErr (List OutRec) :=
  if db.connFail then .error .ioError
  else
    match k with
    | .meta => .ok (db.meta.map (fun e => ⟨e.1, .metaDoc e.2⟩))
    | .docs =>
      .ok (db.docs.map
        (fun e =>
          let r := decStep s e.2
          ⟨e.1, match r.payload with
                | some p => .pl p
                | none => .whole r⟩))

/-- DefaultSchemaStrategy.prototype.deleteRecord: DELETE FROM table WHERE
id = ?; deleting an absent row is a no-op, not an error. -/
def defDeleteRecord (s : DefStrategy) (db : DefDb) (k : RecKind) (id : String) :
    DefDb × Option DbErr :=
  if db.connFail then (db, some .ioError)
  else
    match k with
    | .meta => ({ db with meta := eraseKV id db.meta }, none)
    | .docs => ({ db with docs := eraseKV id db.docs }, none)

/-- Result object of the JSON-inventory reads: {id: 'inventory', payload}
where payload is the parsed stored document. -/
structure DefInvResult where
  id : String
  payload : MetaVal
deriving DecidableEq

/-- DefaultSchemaStrategy.prototype.initializeInventory: returns the stored
inventory document unchanged when the meta row exists, otherwise INSERTs a
fresh empty one and returns it. -/
def defInitializeInventory (db : DefDb) : Except DbErr (DefInvResult × DefDb) :=
  if db.connFail then .error .ioError
  else
    match lookupKV "inventory" db.meta with
    | some mv => .ok (⟨"inventory", mv⟩, db)
    | none =>
      .ok (⟨"inventory", .inv {}⟩,
        { db with meta := setKV "inventory" (.inv {}) db.meta })

/-- DefaultSchemaStrategy.prototype.readInventory: returns the stored
inventory document, or an empty one when the row is absent. -/
def defReadInventory (db : DefDb) : Except DbErr DefInvResult :=
  if db.connFail then .error .ioError
  else
    match lookupKV "inventory" db.meta with
    | some mv => .ok ⟨"inventory", mv⟩
    | none => .ok ⟨"inventory", .inv {}⟩

/-- The collections map of a parsed inventory document; a meta row that is
not inventory-shaped has none (accessing .collections[c] on it throws in
JS, surfacing as a failure). -/
def collectionsOf : MetaVal → Option (List (String × List (String × JsonVal)))
  | .inv d => some d.collections
  | .pl _ => none

/-- DefaultSchemaStrategy.prototype.updateInventoryItem: read-modify-write
of the JSON inventory document.  The in-memory document first gains an
empty map for the collection when absent; add/update set the doc version,
remove deletes it and prunes the collection key when emptied; any OTHER
operation name falls through both branches with no error, and the document
(including a freshly added empty collection key) is written back as a
success.  The UPDATE statement matches the existing inventory row; with no
such row it affects nothing. -/
def defUpdateInventoryItem (db : DefDb) (collection docId : String)
    (version : JsonVal) (operation : String) : DefDb × Option DbErr :=
  match defReadInventory db with
  | .error e => (db, some e)
  | .ok invRes =>
    match collectionsOf invRes.payload with
    | none => (db, some .ioError)
    | some cols0 =>
      let cols1 :=
        if (lookupKV collection cols0).isNone then setKV collection [] cols0
        else cols0
      let cols2 :=
        if operation = "add" || operation = "update" then
          setKV collection (setKV docId version ((lookupKV collection cols1).getD []))
            cols1
        else if operation = "remove" then
          let m := eraseKV docId ((lookupKV collection cols1).getD [])
          if m.isEmpty then eraseKV collection cols1
          else setKV collection m cols1
        else cols1
      if (lookupKV "inventory" db.meta).isSome then
        ({ db with meta := setKV "inventory" (.inv ⟨cols2⟩) db.meta }, none)
      else (db, none)

/-- DefaultSchemaStrategy.prototype.deleteAllTables: drops the meta, docs
and inventory tables. -/
def defDeleteAllTables (db : DefDb) : DefDb × Option DbErr :=
  if db.connFail then (db, some .ioError)
  else ({ db with docs := [], meta := [] }, none)

/-!
Storage coordinator (SqliteStorage).  The coordinator is constructed
not-ready; initialize() sets ready once schema and inventory initialization
complete; close() clears ready first and then drops the adapter reference.
Every public operation except initialize/close starts with ensureReady,
which throws the state error before any database access: in the model each
operation dispatches on the guard before its delegate ever sees the
database state.
-/

/-- Lifecycle state of a SqliteStorage coordinator (over the default
Shared-Table strategy). -/
structure Storage where
  ready : Bool := false
  adapterPresent : Bool := true
  strategy : DefStrategy := {}

/-- SqliteStorage constructor state: not ready, adapter attached. -/
def mkStorage (s : DefStrategy) : Storage :=
  { ready := false, adapterPresent := true, strategy := s }

/-- SqliteStorage.prototype.ensureReady as a predicate: the operation may
proceed only when the coordinator is ready and still holds its adapter. -/
def ensureReadyB (st : Storage) : Bool :=
  st.ready && st.adapterPresent

/-- SqliteStorage.prototype.close: marks not-ready first (blocking new
operations) and releases the adapter reference; closing a coordinator that
is not ready leaves it untouched. -/
def closeStorage (st : Storage) : Storage :=
  if st.adapterPresent && st.ready then
    { st with ready := false, adapterPresent := false }
  else st

/-- The coordinator's store-name resolution: the reserved name "meta" maps
to the meta kind with no collection, anything else is a document store. -/
def resolveStore (storeName : String) : RecKind :=
  if storeName = "meta" then .meta else .docs

/-- SqliteStorage.prototype.writeRecords: guard, then delegate. -/
def storageWriteRecords (st : Storage) (db : DefDb) (b : Batch) :
    DefDb × Option DbErr :=
  if ensureReadyB st then defWriteRecords st.strategy db b
  else (db, some .notReady)

/-- SqliteStorage.prototype.readRecord: guard, then delegate; any delegate
error is swallowed and surfaced as the null result, and the caller receives
just the record's payload field. -/
def storageReadRecord (st : Storage) (db : DefDb) (storeName id : String) :
    Except DbErr (Option Payload) :=
  if ensureReadyB st then
    .ok
      (match defReadRecord st.strategy db (resolveStore storeName) id with
       | .error _ => none
       | .ok none => none
       | .ok (some (.record r)) => r.payload
       | .ok (some (.metav _)) => none)
  else .error .notReady

/-- SqliteStorage.prototype.readAllRecords: guard, then delegate. -/
def storageReadAllRecords (st : Storage) (db : DefDb) (storeName : String) :
    Except DbErr (List OutRec) :=
  if ensureReadyB st then defReadAllRecords st.strategy db (resolveStore storeName)
  else .error .notReady

/-- SqliteStorage.prototype.readRecordsBulk: guard; an empty id list yields
an empty result with zero database calls; otherwise the strategy's native
bulk path runs one query.  The second component counts the database calls
made. -/
def storageReadRecordsBulk (st : Storage) (db : DefDb) (storeName : String)
    (ids : List String) : Except DbErr (List OutRec) × Nat :=
  if ensureReadyB st then
    if ids.isEmpty then (.ok [], 0)
    else (defReadRecordsBulk st.strategy db (resolveStore storeName) ids, 1)
  else (.error .notReady, 0)

/-- SqliteStorage.prototype.deleteRecord: guard, then delegate. -/
def storageDeleteRecord (st : Storage) (db : DefDb) (storeName id : String) :
    DefDb × Option DbErr :=
  if ensureReadyB st then defDeleteRecord st.strategy db (resolveStore storeName) id
  else (db, some .notReady)

/-- SqliteStorage.prototype.updateInventory: guard, then delegate. -/
def storageUpdateInventory (st : Storage) (db : DefDb) (collection docId : String)
    (version : JsonVal) (operation : String) : DefDb × Option DbErr :=
  if ensureReadyB st then defUpdateInventoryItem db collection docId version operation
  else (db, some .notReady)

/-- SqliteStorage.prototype.readInventory: guard, then delegate. -/
def storageReadInventory (st : Storage) (db : DefDb) :
    Except DbErr DefInvResult :=
  if ensureReadyB st then defReadInventory db
  else .error .notReady

/-- SqliteStorage.prototype.deleteDatabase: guard, then delegate. -/
def storageDeleteDatabase (st : Storage) (db : DefDb) : DefDb × Option DbErr :=
  if ensureReadyB st then defDeleteAllTables db
  else (db, some .notReady)

/-!
Connection pool health (StandardSQLiteConnectionPool).  JavaScript number
arithmetic on these statistics is modelled by exact rational arithmetic;
Math.round(x) is round x = ⌊x + 1/2⌋.
-/

/-- Pool state and counters as getStats sees them. -/
structure PoolState where
  size : Nat := 0
  borrowed : Nat := 0
  pending : Nat := 0
  validationSuccesses : Nat := 0
  validationFailures : Nat := 0
  acquireSuccesses : Nat := 0
  acquireFailures : Nat := 0
deriving DecidableEq

/-- Validation success rate as a 0-100 score; 100 with no validations yet. -/
def validationScore (p : PoolState) : ℚ :=
  if p.validationSuccesses + p.validationFailures > 0 then
    (p.validationSuccesses : ℚ) / ((p.validationSuccesses : ℚ) + (p.validationFailures : ℚ)) * 100
  else 100

/-- Acquisition success rate as a 0-100 score; 100 with no acquisitions yet. -/
def acquisitionScore (p : PoolState) : ℚ :=
  if p.acquireSuccesses + p.acquireFailures > 0 then
    (p.acquireSuccesses : ℚ) / ((p.acquireSuccesses : ℚ) + (p.acquireFailures : ℚ)) * 100
  else 100

/-- Utilization score: 0-50 points, 50% utilization optimal, 0 for an empty
pool. -/
def utilizationScore (p : PoolState) : ℚ :=
  if p.size > 0 then
    let u : ℚ := (p.borrowed : ℚ) / (p.size : ℚ)
    if u ≤ 1 / 2 then u * 100 else (1 - u) * 100
  else 0

/-- StandardSQLiteConnectionPool.prototype._calculateHealthScore:
Math.round(validationScore * 0.4 + acquisitionScore * 0.4 + utilizationScore * 0.2). -/
def healthScore (p : PoolState) : ℤ :=
  round (validationScore p * (4 / 10) + acquisitionScore p * (4 / 10)
    + utilizationScore p * (2 / 10))

/-- StandardSQLiteConnectionPool.prototype._isHealthy: healthy iff the
score reaches 80, the pool holds at least one connection, and the pending
requests are strictly fewer than the connections. -/
def isHealthy (p : PoolState) : Bool :=
  healthScore p ≥ 80 && p.size > 0 && p.pending < p.size

/-!
Concrete instances used by witnesses and counterexamples: injective
serialization-composed callbacks built from the Encodable encodings, and
small database states.
-/

/-- An injective whole-payload serialize-then-encrypt composite: a unary
string whose length is one more than the payload's encoding. -/
def strEnc (p : Payload) : String :=
  String.mk (List.replicate (Encodable.encode p + 1) 'a')

/-- A whole-payload encryption composite that is injective and invertible
but maps the empty payload to the empty ciphertext string. -/
def encPbad (p : Payload) : String :=
  if p = [] then "" else strEnc p

/-- The exact inverse of encPbad. -/
def decPbad (s : String) : Payload :=
  if s.data.length = 0 then []
  else (Encodable.decode (s.data.length - 1)).getD []

/-- A field-value encryption composite: a unary string of the value's
encoding; injective with the exact inverse decVgood. -/
def encVgood (v : JsonVal) : String :=
  String.mk (List.replicate (Encodable.encode v) 'a')

/-- The exact inverse of encVgood. -/
def decVgood (s : String) : JsonVal :=
  (Encodable.decode s.data.length).getD .null

/-- A whole-payload encryption composite that never produces an empty
ciphertext; injective with the exact inverse decPgood. -/
def encPgood (p : Payload) : String := strEnc p

/-- The exact inverse of encPgood. -/
def decPgood (s : String) : Payload :=
  (Encodable.decode (s.data.length - 1)).getD []

/-- A Table-Per-Collection strategy holding the invertible callback pair
whose whole-payload direction can yield an empty ciphertext. -/
def sBad : CptStrategy :=
  { useEncryption := true,
    encryptionCallback := some ⟨encVgood, encPbad⟩,
    decryptionCallback := some ⟨decVgood, decPbad⟩ }

/-- A Table-Per-Collection strategy holding the well-behaved invertible
callback pair, with a field-level encryption list for the users collection. -/
def sGood : CptStrategy :=
  { useEncryption := true,
    encryptionCallback := some ⟨encVgood, encPgood⟩,
    decryptionCallback := some ⟨decVgood, decPgood⟩,
    collectionConfig := [("users", { encryptedFields := ["password"] })] }

/-- A Shared-Table strategy holding the well-behaved callback pair. -/
def sGoodDef : DefStrategy :=
  { useEncryption := true,
    encryptionCallback := some ⟨encVgood, encPgood⟩,
    decryptionCallback := some ⟨decVgood, decPgood⟩ }

/-- A record with an empty payload object. -/
def rEmpty : EncRecord := { id := "u1", payload := some [] }

/-- A doc record for the users collection. -/
def rUser1 : EncRecord :=
  { id := "users/u1", payload := some [("collection", .str "users")] }

/-- A second doc record for the users collection. -/
def rUser2 : EncRecord :=
  { id := "users/u2", payload := some [("collection", .str "users")] }

/-- A users doc record carrying version 5. -/
def rUserV5 : EncRecord :=
  { id := "users/u1",
    payload := some [("collection", .str "users"), ("v", .num 5)] }

/-- A cheap (non-invertible) encryption callback pair used where only the
encryption direction matters. -/
def cbCheap : EncCallback := ⟨fun _ => "x", fun _ => "x"⟩

/-- A Table-Per-Collection strategy with whole-payload encryption enabled
for every collection (no encrypted-field lists configured). -/
def sWholeEnc : CptStrategy :=
  { useEncryption := true,
    encryptionCallback := some cbCheap,
    decryptionCallback := none }

/-- A pool state at full utilization headroom with two waiters: two
connections, none borrowed, two pending requests, fresh counters. -/
def poolPending2 : PoolState := { size := 2, borrowed := 0, pending := 2 }

/-- A freshly constructed coordinator: not ready until initialization
completes. -/
def stFresh : Storage := mkStorage {}

/-- A coordinator that has completed initialization. -/
def stReady : Storage := { ready := true }

/-- A record whose payload has one plain and one to-be-encrypted field. -/
def rAnn : EncRecord :=
  { id := "users/ann",
    payload := some [("collection", .str "users"), ("name", .str "Ann"),
                     ("password", .str "pw")] }

/-- A Table-Per-Collection strategy with the well-behaved callbacks and no
per-collection configuration: every collection uses whole-payload mode. -/
def sGoodWhole : CptStrategy :=
  { useEncryption := true,
    encryptionCallback := some ⟨encVgood, encPgood⟩,
    decryptionCallback := some ⟨decVgood, decPgood⟩ }

/-- A Shared-Table database with two stored user records. -/
def dbTwoUsers : DefDb :=
  { docs := [("users/u1", rUser1), ("users/u2", rUser2)] }

/-- A Shared-Table database whose stored inventory lists two users docs. -/
def dbInvTwo : DefDb :=
  { meta := [("inventory", .inv ⟨[("users", [("u1", .num 1), ("u2", .num 2)])]⟩)] }

/-- A Shared-Table database whose stored inventory lists a single users doc. -/
def dbInvOne : DefDb :=
  { meta := [("inventory", .inv ⟨[("users", [("u1", .num 2)])]⟩)] }

/-- A Table-Per-Collection database with two inventory rows. -/
def cdbInvTwo : CptDb :=
  { invTbl := [(("users", "u1"), ⟨.num 1, 5⟩), (("users", "u2"), ⟨.num 2, 5⟩)] }

/-- A Table-Per-Collection database with one inventory row. -/
def cdbInvOne : CptDb :=
  { invTbl := [(("users", "u1"), ⟨.num 5, 3⟩)] }

/-- A Table-Per-Collection database that rejects the INSERT of the second
user record. -/
def cdbFail2 : CptDb := { failIds := ["users/u2"] }

/-- A Shared-Table database that rejects the INSERT of the second user
record. -/
def dbFail2 : DefDb := { failIds := ["users/u2"] }

/-- The coordinator fallback loop (SqliteStorage.readRecordsBulk without a
native bulk path), specialized to doc reads: call readRecord for each id,
aggregate the non-null records, short-circuit with the first error. -/
def readDocEach (s : DefStrategy) (db : DefDb) : List String → Except DbErr (List EncRecord)
  | [] => .ok []
  | id :: rest =>
    match defReadDoc s db id with
    | .error e => .error e
    | .ok none => readDocEach s db rest
    | .ok (some r) => (readDocEach s db rest).map (fun l => r :: l)

/-!
Helper lemmas.  Everything from here on is a theorem; the lemmas on the
association-list primitives come first, then the lemmas on the encryption,
read and write paths, then the claim theorems.
-/

theorem lookupKV_setKV_self {κ α : Type} [DecidableEq κ] (k : κ) (v : α)
    (l : List (κ × α)) : lookupKV k (setKV k v l) = some v := by
  induction l with
  | nil => simp [setKV, lookupKV]
  | cons e rest ih =>
    obtain ⟨k2, v2⟩ := e
    by_cases h : k2 = k
    · simp [setKV, h, lookupKV]
    · simp [setKV, h, lookupKV, ih]

theorem lookupKV_setKV_ne {κ α : Type} [DecidableEq κ] {k k2 : κ} (v : α)
    (l : List (κ × α)) (h : k ≠ k2) : lookupKV k2 (setKV k v l) = lookupKV k2 l := by
  induction l with
  | nil => simp [setKV, lookupKV, h]
  | cons e rest ih =>
    obtain ⟨k3, v3⟩ := e
    by_cases h3 : k3 = k
    · subst h3
      simp [setKV, lookupKV, h]
    · simp [setKV, h3, lookupKV, ih]

theorem lookupKV_eraseKV_self {κ α : Type} [DecidableEq κ] (k : κ)
    (l : List (κ × α)) : lookupKV k (eraseKV k l) = none := by
  induction l with
  | nil => simp [eraseKV, lookupKV]
  | cons e rest ih =>
    obtain ⟨k2, v2⟩ := e
    by_cases h : k2 = k
    · simp [eraseKV, h, ih]
    · simp [eraseKV, h, lookupKV, ih]

theorem lookupKV_eraseKV_ne {κ α : Type} [DecidableEq κ] {k k2 : κ}
    (l : List (κ × α)) (h : k ≠ k2) : lookupKV k2 (eraseKV k l) = lookupKV k2 l := by
  induction l with
  | nil => simp [eraseKV]
  | cons e rest ih =>
    obtain ⟨k3, v3⟩ := e
    by_cases h3 : k3 = k
    · subst h3
      simp [eraseKV, lookupKV, h, ih]
    · simp [eraseKV, h3, lookupKV, ih]

theorem lookupKV_append {κ α : Type} [DecidableEq κ] (k : κ)
    (l1 l2 : List (κ × α)) :
    lookupKV k (l1 ++ l2) =
      (match lookupKV k l1 with
       | some v => some v
       | none => lookupKV k l2) := by
  induction l1 with
  | nil => simp [lookupKV]
  | cons e rest ih =>
    obtain ⟨k2, v2⟩ := e
    by_cases h : k2 = k
    · simp [lookupKV, h]
    · simp [lookupKV, h, ih]

theorem lookupKV_mem {κ α : Type} [DecidableEq κ] {k : κ} {v : α}
    {l : List (κ × α)} (h : lookupKV k l = some v) : (k, v) ∈ l := by
  induction l with
  | nil => simp [lookupKV] at h
  | cons e rest ih =>
    obtain ⟨k2, v2⟩ := e
    by_cases h2 : k2 = k
    · subst h2
      simp [lookupKV] at h
      simp [h]
    · simp [lookupKV, h2] at h
      exact List.mem_cons_of_mem _ (ih h)

theorem mem_lookupKV {κ α : Type} [DecidableEq κ] {k : κ} {v : α}
    {l : List (κ × α)} (hnd : (l.map Prod.fst).Nodup) (h : (k, v) ∈ l) :
    lookupKV k l = some v := by
  induction l with
  | nil => simp at h
  | cons e rest ih =>
    obtain ⟨k2, v2⟩ := e
    simp only [List.map_cons, List.nodup_cons] at hnd
    rcases List.mem_cons.mp h with h1 | h1
    · obtain ⟨hk, hv⟩ := Prod.mk.injEq .. ▸ h1
      simp [lookupKV, hk.symm, hv]
    · have hk2 : k2 ≠ k := by
        intro he
        subst he
        exact hnd.1 (List.mem_map.mpr ⟨(k2, v), h1, rfl⟩)
      simp [lookupKV, hk2, ih hnd.2 h1]

theorem decPbad_encPbad (p : Payload) : decPbad (encPbad p) = p := by
  by_cases h : p = []
  · simp [encPbad, h, decPbad]
  · simp [encPbad, h, decPbad, strEnc, Encodable.encodek]

theorem decVgood_encVgood (v : JsonVal) : decVgood (encVgood v) = v := by
  simp [encVgood, decVgood, Encodable.encodek]

theorem decPgood_encPgood (p : Payload) : decPgood (encPgood p) = p := by
  simp [encPgood, decPgood, strEnc, Encodable.encodek]

theorem encPgood_ne_empty (p : Payload) : encPgood p ≠ "" := by
  simp only [encPgood, strEnc, ne_eq]
  intro h
  have h2 := congrArg String.data h
  simp at h2

theorem lookupKV_eraseKV_none {κ α : Type} [DecidableEq κ] {k : κ} (f : κ)
    {l : List (κ × α)} (h : lookupKV k l = none) :
    lookupKV k (eraseKV f l) = none := by
  by_cases hkf : f = k
  · subst hkf
    exact lookupKV_eraseKV_self f l
  · rw [lookupKV_eraseKV_ne l hkf]
    exact h

theorem encFold_fst_lookup (cb : EncCallback) (fs : List String) :
    ∀ (p : Payload) (ed : List (String × String)) (k : String),
      lookupKV k (fs.foldl (encFieldStep cb) (p, ed)).1
        = if k ∈ fs then none else lookupKV k p := by
  induction fs with
  | nil => intro p ed k; simp
  | cons f fs ih =>
    intro p ed k
    rw [List.foldl_cons]
    by_cases hk : k ∈ fs
    · cases hf : lookupKV f p <;>
        simp [encFieldStep, hf, ih, hk, List.mem_cons]
    · by_cases hkf : k = f
      · subst hkf
        cases hf : lookupKV k p with
        | none => simp [encFieldStep, hf, ih, hk, List.mem_cons]
        | some v =>
          simp only [encFieldStep, hf, ih, hk, if_false, List.mem_cons, true_or,
            if_true]
          exact lookupKV_eraseKV_self k p
      · cases hf : lookupKV f p with
        | none => simp [encFieldStep, hf, ih, hk, hkf, List.mem_cons]
        | some v =>
          simp only [encFieldStep, hf, ih, hk, if_false, List.mem_cons, hkf,
            false_or]
          exact lookupKV_eraseKV_ne p (fun h2 => hkf h2.symm)

theorem encFold_snd_lookup (cb : EncCallback) (fs : List String) :
    ∀ (p : Payload) (ed : List (String × String)) (k : String),
      lookupKV k (fs.foldl (encFieldStep cb) (p, ed)).2
        = match lookupKV k ed with
          | some c => some c
          | none => if k ∈ fs then (lookupKV k p).map cb.onVal else none := by
  induction fs with
  | nil => intro p ed k; cases h : lookupKV k ed <;> simp [h]
  | cons f fs ih =>
    intro p ed k
    rw [List.foldl_cons]
    cases hf : lookupKV f p with
    | none =>
      rw [show encFieldStep cb (p, ed) f = (p, ed) from by simp [encFieldStep, hf]]
      rw [ih]
      cases hed : lookupKV k ed with
      | some c => simp
      | none =>
        by_cases hkf : k = f
        · subst hkf
          simp [hf, List.mem_cons]
        · simp [List.mem_cons, hkf]
    | some v =>
      rw [show encFieldStep cb (p, ed) f = (eraseKV f p, ed ++ [(f, cb.onVal v)])
        from by simp [encFieldStep, hf]]
      rw [ih]
      cases hed : lookupKV k ed with
      | some c => simp [lookupKV_append, hed]
      | none =>
        by_cases hkf : k = f
        · subst hkf
          simp [lookupKV_append, hed, lookupKV, lookupKV_eraseKV_self, hf]
        · have hfk : f ≠ k := fun h3 => hkf h3.symm
          have h2 : lookupKV k (ed ++ [(f, cb.onVal v)]) = none := by
            simp [lookupKV_append, hed, lookupKV, hfk]
          rw [h2]
          rw [lookupKV_eraseKV_ne p hfk]
          simp [List.mem_cons, hkf]

theorem encFold_snd_nodup (cb : EncCallback) (fs : List String) :
    ∀ (p : Payload) (ed : List (String × String)),
      (ed.map Prod.fst).Nodup → (∀ e ∈ ed, lookupKV e.1 p = none) →
      ((fs.foldl (encFieldStep cb) (p, ed)).2.map Prod.fst).Nodup := by
  induction fs with
  | nil => intro p ed hnd hab; simpa using hnd
  | cons f fs ih =>
    intro p ed hnd hab
    rw [List.foldl_cons]
    cases hf : lookupKV f p with
    | none =>
      rw [show encFieldStep cb (p, ed) f = (p, ed) from by simp [encFieldStep, hf]]
      exact ih p ed hnd hab
    | some v =>
      rw [show encFieldStep cb (p, ed) f = (eraseKV f p, ed ++ [(f, cb.onVal v)])
        from by simp [encFieldStep, hf]]
      apply ih
      · rw [List.map_append]
        apply List.Nodup.append hnd (by simp)
        intro x hx hx2
        simp at hx2
        subst hx2
        obtain ⟨e, he, he2⟩ := List.mem_map.mp hx
        have := hab e he
        rw [he2] at this
        rw [this] at hf
        exact Option.noConfusion hf
      · intro e he
        rcases List.mem_append.mp he with h1 | h1
        · exact lookupKV_eraseKV_none f (hab e h1)
        · simp at h1
          subst h1
          simpa using lookupKV_eraseKV_self f p

theorem decFold_lookup (dcb : DecCallback) (ed : List (String × String)) :
    ∀ (q : Payload) (k : String), (ed.map Prod.fst).Nodup →
      lookupKV k (ed.foldl (fun acc e => setKV e.1 (dcb.onVal e.2) acc) q)
        = match lookupKV k ed with
          | some c => some (dcb.onVal c)
          | none => lookupKV k q := by
  induction ed with
  | nil => intro q k hnd; simp [lookupKV]
  | cons e rest ih =>
    intro q k hnd
    obtain ⟨f, c⟩ := e
    simp only [List.map_cons, List.nodup_cons] at hnd
    rw [List.foldl_cons]
    rw [ih _ k hnd.2]
    by_cases hkf : k = f
    · subst hkf
      have hrest : lookupKV k rest = none := by
        cases h2 : lookupKV k rest with
        | none => rfl
        | some c2 =>
          exact absurd (List.mem_map.mpr ⟨(k, c2), lookupKV_mem h2, rfl⟩) hnd.1
      rw [hrest]
      simp [lookupKV, lookupKV_setKV_self]
    · have hfk : f ≠ k := fun h3 => hkf h3.symm
      cases h2 : lookupKV k rest with
      | none =>
        simp only [lookupKV, if_neg hfk]
        rw [h2]
        exact lookupKV_setKV_ne (dcb.onVal c) q hfk
      | some c2 => simp [lookupKV, hfk, h2]

theorem cptFieldRoundtrip (cb : EncCallback) (dcb : DecCallback)
    (hV : ∀ v, dcb.onVal (cb.onVal v) = v) (fs : List String) (p : Payload) :
    mapEquiv
      ((fs.foldl (encFieldStep cb) (p, [])).2.foldl
        (fun acc e => setKV e.1 (dcb.onVal e.2) acc)
        (fs.foldl (encFieldStep cb) (p, [])).1)
      p := by
  intro k
  have hnd : (((fs.foldl (encFieldStep cb) (p, [])).2.map Prod.fst)).Nodup :=
    encFold_snd_nodup cb fs p [] (by simp) (by simp)
  rw [decFold_lookup dcb _ _ k hnd]
  rw [encFold_snd_lookup cb fs p [] k]
  rw [encFold_fst_lookup cb fs p [] k]
  simp only [lookupKV]
  by_cases hk : k ∈ fs
  · cases hp : lookupKV k p with
    | none => simp [hk, hp]
    | some v => simp [hk, hp, hV v]
  · simp [hk]

/-!
Helper lemmas for the bulk-read / individual-read equivalence.
-/

theorem maybeDecryptRecord_id (s : DefStrategy) (r : EncRecord) :
    (maybeDecryptRecord s r).id = r.id := by
  cases hu : s.useEncryption <;> cases hc : s.decryptionCallback <;>
    cases ht : truthyStr r.encrypted_payload <;>
      simp [maybeDecryptRecord, hu, hc, ht]

theorem decStep_id (s : DefStrategy) (r : EncRecord) :
    (decStep s r).id = r.id := by
  unfold decStep
  by_cases h : (s.useEncryption && truthyStr r.encrypted_payload) = true
  · rw [if_pos h]
    exact maybeDecryptRecord_id s r
  · rw [if_neg h]

theorem readDocEach_mem (s : DefStrategy) (db : DefDb)
    (hcf : db.connFail = false) (ids : List String) :
    ∃ rows, readDocEach s db ids = .ok rows ∧
      ∀ r, r ∈ rows ↔ ∃ id, id ∈ ids ∧ defReadDoc s db id = .ok (some r) := by
  induction ids with
  | nil => exact ⟨[], rfl, by simp⟩
  | cons id rest ih =>
    obtain ⟨rows, hrows, hiff⟩ := ih
    cases hr : lookupKV id db.docs with
    | none =>
      refine ⟨rows, ?_, ?_⟩
      · simp only [readDocEach, defReadDoc, hcf, if_false, hr]
        exact hrows
      · intro r
        rw [hiff r]
        constructor
        · rintro ⟨id2, h1, h2⟩
          exact ⟨id2, List.mem_cons_of_mem _ h1, h2⟩
        · rintro ⟨id2, h1, h2⟩
          rcases List.mem_cons.mp h1 with h3 | h3
          · subst h3
            simp [defReadDoc, hcf, hr] at h2
          · exact ⟨id2, h3, h2⟩
    | some r0 =>
      refine ⟨decStep s r0 :: rows, ?_, ?_⟩
      · simp [readDocEach, defReadDoc, hcf, hr, hrows, Except.map]
      · intro r
        constructor
        · intro h1
          rcases List.mem_cons.mp h1 with h3 | h3
          · exact ⟨id, List.mem_cons_self id rest,
              by simp [defReadDoc, hcf, hr, h3]⟩
          · obtain ⟨id2, h4, h5⟩ := (hiff r).mp h3
            exact ⟨id2, List.mem_cons_of_mem _ h4, h5⟩
        · rintro ⟨id2, h1, h2⟩
          rcases List.mem_cons.mp h1 with h3 | h3
          · subst h3
            simp [defReadDoc, hcf, hr] at h2
            simp [h2]
          · exact List.mem_cons_of_mem _ ((hiff r).mpr ⟨id2, h3, h2⟩)

/-!
Helper lemmas for the Table-Per-Collection write path.
-/

theorem encryptRecordForCollection_id (s : CptStrategy) (r : EncRecord)
    (c : String) : (encryptRecordForCollection s r c).id = r.id := by
  unfold encryptRecordForCollection
  cases hu : s.useEncryption <;> cases hc : s.encryptionCallback <;>
    first
      | rfl
      | (simp only []
         split <;> rfl)

theorem cptInsertDoc_facts (db : CptDb) (c : String) (r : EncRecord) (now : Nat) :
    (cptInsertDoc db c r now).1.failIds = db.failIds ∧
    (cptInsertDoc db c r now).1.connFail = db.connFail ∧
    (cptInsertDoc db c r now).1.metaTbl = db.metaTbl ∧
    ((cptInsertDoc db c r now).2 = false →
      (cptInsertDoc db c r now).1.invTbl
        = setKV (c, r.id) ⟨versionOf r, now⟩ db.invTbl) ∧
    ((cptInsertDoc db c r now).2 = true → (cptInsertDoc db c r now).1 = db) := by
  unfold cptInsertDoc
  split <;> simp

theorem cptInsertMeta_facts (db : CptDb) (r : EncRecord) :
    (cptInsertMeta db r).1.invTbl = db.invTbl ∧
    (cptInsertMeta db r).1.tables = db.tables ∧
    (cptInsertMeta db r).1.failIds = db.failIds ∧
    (cptInsertMeta db r).1.connFail = db.connFail := by
  unfold cptInsertMeta
  split <;> simp

theorem cptDocFold_flag_mono (s : CptStrategy) (c : String) (now : Nat)
    (l : List EncRecord) :
    ∀ st : CptDb × List String × Bool, st.2.2 = true →
      (l.foldl (cptWriteDocStep s c now) st).2.2 = true := by
  induction l with
  | nil => intro st h; exact h
  | cons r l ih =>
    intro st h
    rw [List.foldl_cons]
    apply ih
    simp only [cptWriteDocStep, h, Bool.true_or]

theorem cptDocFold_flag_false (s : CptStrategy) (c : String) (now : Nat)
    (l : List EncRecord) (st : CptDb × List String × Bool)
    (h : (l.foldl (cptWriteDocStep s c now) st).2.2 = false) : st.2.2 = false := by
  cases h2 : st.2.2 with
  | false => rfl
  | true => rw [cptDocFold_flag_mono s c now l st h2] at h; exact h

theorem cptDocFold_invTbl_ne (s : CptStrategy) (c : String) (now : Nat)
    (l : List EncRecord) (key : String × String)
    (hk : ∀ r ∈ l, key ≠ (c, r.id)) :
    ∀ st, lookupKV key (l.foldl (cptWriteDocStep s c now) st).1.invTbl
      = lookupKV key st.1.invTbl := by
  induction l with
  | nil => intro st; rfl
  | cons r l ih =>
    intro st
    rw [List.foldl_cons]
    rw [ih (fun r2 h2 => hk r2 (List.mem_cons_of_mem _ h2))]
    obtain ⟨_, _, _, hok, hfail⟩ :=
      cptInsertDoc_facts st.1 c (encryptRecordForCollection s r c) now
    show lookupKV key (cptInsertDoc st.1 c (encryptRecordForCollection s r c) now).1.invTbl
      = lookupKV key st.1.invTbl
    cases hf : (cptInsertDoc st.1 c (encryptRecordForCollection s r c) now).2 with
    | true => rw [hfail hf]
    | false =>
      rw [hok hf]
      rw [encryptRecordForCollection_id]
      exact lookupKV_setKV_ne _ _ (Ne.symm (hk r (List.mem_cons_self r l)))

theorem cptDocFold_invTbl_mem (s : CptStrategy) (c : String) (now : Nat)
    (l : List EncRecord) (r : EncRecord) :
    ∀ st, r ∈ l → (l.map (fun x => x.id)).Nodup →
      (l.foldl (cptWriteDocStep s c now) st).2.2 = false →
      lookupKV (c, r.id) (l.foldl (cptWriteDocStep s c now) st).1.invTbl
        = some ⟨versionOf (encryptRecordForCollection s r c), now⟩ := by
  induction l with
  | nil => intro st h; simp at h
  | cons r2 l ih =>
    intro st hmem hnd hfin
    simp only [List.map_cons, List.nodup_cons] at hnd
    rw [List.foldl_cons] at hfin ⊢
    have hstep : (cptWriteDocStep s c now st r2).2.2 = false :=
      cptDocFold_flag_false s c now l _ hfin
    have hins : (cptInsertDoc st.1 c (encryptRecordForCollection s r2 c) now).2 = false := by
      simp only [cptWriteDocStep] at hstep
      exact (Bool.or_eq_false_iff.mp hstep).2
    rcases List.mem_cons.mp hmem with h1 | h1
    · subst h1
      rw [cptDocFold_invTbl_ne s c now l (c, r.id)]
      · obtain ⟨_, _, _, hok, _⟩ :=
          cptInsertDoc_facts st.1 c (encryptRecordForCollection s r c) now
        show lookupKV (c, r.id)
          (cptInsertDoc st.1 c (encryptRecordForCollection s r c) now).1.invTbl = _
        rw [hok hins, encryptRecordForCollection_id]
        exact lookupKV_setKV_self _ _ _
      · intro r2 h2 h3
        have h4 : r2.id = r.id := by
          have := congrArg Prod.snd h3
          exact this.symm
        exact hnd.1 (List.mem_map.mpr ⟨r2, h2, h4⟩)
    · exact ih _ h1 hnd.2 hfin

theorem cptGroupFold_flag_mono (s : CptStrategy) (now : Nat)
    (groups : List (String × List EncRecord)) :
    ∀ st, st.2.2 = true →
      (groups.foldl (fun st2 grp => cptWriteGroup s st2 grp now) st).2.2 = true := by
  induction groups with
  | nil => intro st h; exact h
  | cons grp rest ih =>
    intro st h
    rw [List.foldl_cons]
    apply ih
    unfold cptWriteGroup
    apply cptDocFold_flag_mono
    exact h

theorem cptGroupFold_flag_false (s : CptStrategy) (now : Nat)
    (groups : List (String × List EncRecord)) (st : CptDb × List String × Bool)
    (h : (groups.foldl (fun st2 grp => cptWriteGroup s st2 grp now) st).2.2 = false) :
    st.2.2 = false := by
  cases h2 : st.2.2 with
  | false => rfl
  | true => rw [cptGroupFold_flag_mono s now groups st h2] at h; exact h

theorem cptGroupFold_invTbl_other (s : CptStrategy) (now : Nat)
    (groups : List (String × List EncRecord)) (key : String × String)
    (hk : ∀ grp ∈ groups, key.1 ≠ grp.1) :
    ∀ st, lookupKV key
        (groups.foldl (fun st2 grp => cptWriteGroup s st2 grp now) st).1.invTbl
      = lookupKV key st.1.invTbl := by
  induction groups with
  | nil => intro st; rfl
  | cons grp rest ih =>
    intro st
    rw [List.foldl_cons]
    rw [ih (fun g2 h2 => hk g2 (List.mem_cons_of_mem _ h2))]
    unfold cptWriteGroup
    rw [cptDocFold_invTbl_ne]
    intro r _ h3
    exact hk grp (List.mem_cons_self grp rest)
      (by rw [h3])

theorem cptGroupFold_establish (s : CptStrategy) (now : Nat)
    (groups : List (String × List EncRecord)) :
    ∀ st (c : String) (l : List EncRecord) (r : EncRecord),
      lookupKV c groups = some l → r ∈ l →
      (groups.map Prod.fst).Nodup →
      (∀ c2 l2, lookupKV c2 groups = some l2 → (l2.map (fun x => x.id)).Nodup) →
      (groups.foldl (fun st2 grp => cptWriteGroup s st2 grp now) st).2.2 = false →
      lookupKV (c, r.id)
          (groups.foldl (fun st2 grp => cptWriteGroup s st2 grp now) st).1.invTbl
        = some ⟨versionOf (encryptRecordForCollection s r c), now⟩ := by
  induction groups with
  | nil => intro st c l r h; simp [lookupKV] at h
  | cons grp rest ih =>
    intro st c l r hl hmem hknd hlnd hfin
    simp only [List.map_cons, List.nodup_cons] at hknd
    rw [List.foldl_cons] at hfin ⊢
    by_cases hc : grp.1 = c
    · subst hc
      have hl2 : l = grp.2 := by
        have := hl
        rw [show lookupKV grp.1 (grp :: rest) = some grp.2 from by
          cases grp; simp [lookupKV]] at this
        exact (Option.some.injEq .. ▸ this).symm
      subst hl2
      rw [cptGroupFold_invTbl_other s now rest (grp.1, r.id)
        (fun g2 h2 h3 => hknd.1 (h3 ▸ List.mem_map.mpr ⟨g2, h2, rfl⟩))]
      unfold cptWriteGroup
      apply cptDocFold_invTbl_mem
      · exact hmem
      · exact hlnd grp.1 grp.2 (by cases grp; simp [lookupKV])
      · have := cptGroupFold_flag_false s now rest _ hfin
        unfold cptWriteGroup at this
        exact this
    · have hl3 : lookupKV c rest = some l := by
        have := hl
        rw [show lookupKV c (grp :: rest) = lookupKV c rest from by
          cases grp with
          | mk g1 g2 => simp [lookupKV, hc]] at this
        exact this
      apply ih _ c l r hl3 hmem hknd.2
        (fun c2 l2 h2 => hlnd c2 l2 (by
          cases grp with
          | mk g1 g2 =>
            by_cases hc2 : g1 = c2
            · subst hc2
              exfalso
              have : lookupKV g1 rest = some l2 := h2
              exact hknd.1 (List.mem_map.mpr ⟨(g1, l2), lookupKV_mem this, rfl⟩)
            · simp [lookupKV, hc2, h2]))
        hfin

theorem cptMetaFold_flag_mono (l : List EncRecord) :
    ∀ st : CptDb × Bool, st.2 = true → (l.foldl cptWriteMetaStep st).2 = true := by
  induction l with
  | nil => intro st h; exact h
  | cons r l ih =>
    intro st h
    rw [List.foldl_cons]
    apply ih
    simp only [cptWriteMetaStep, h, Bool.true_or]

theorem cptMetaFold_invTbl (l : List EncRecord) :
    ∀ st : CptDb × Bool, (l.foldl cptWriteMetaStep st).1.invTbl = st.1.invTbl := by
  induction l with
  | nil => intro st; rfl
  | cons r l ih =>
    intro st
    rw [List.foldl_cons, ih]
    exact (cptInsertMeta_facts st.1 r).1

/-!
Helper lemmas about the grouping loop.
-/

theorem lookupKV_none_iff {κ α : Type} [DecidableEq κ] (k : κ) (l : List (κ × α)) :
    lookupKV k l = none ↔ k ∉ l.map Prod.fst := by
  induction l with
  | nil => simp [lookupKV]
  | cons e rest ih =>
    obtain ⟨k2, v2⟩ := e
    by_cases h : k2 = k
    · subst h
      simp [lookupKV]
    · have hk : ¬k = k2 := fun h2 => h h2.symm
      simp [lookupKV, h, ih, hk]

theorem addToGroup_lookup (c : String) (r : EncRecord)
    (g : List (String × List EncRecord)) (c2 : String) :
    lookupKV c2 (addToGroup c r g)
      = if c2 = c then some (((lookupKV c g).getD []) ++ [r])
        else lookupKV c2 g := by
  unfold addToGroup
  cases hg : lookupKV c g with
  | some l =>
    by_cases h : c2 = c
    · subst h
      simp [lookupKV_setKV_self, hg]
    · have hcc : c ≠ c2 := fun h2 => h h2.symm
      simp [h, lookupKV_setKV_ne _ _ hcc]
  | none =>
    rw [lookupKV_append]
    by_cases h : c2 = c
    · subst h
      simp [hg, lookupKV]
    · have hcc : ¬c = c2 := fun h3 => h h3.symm
      simp only [hg, if_neg h]
      cases h2 : lookupKV c2 g <;> simp [lookupKV, hcc]

theorem setKV_keys {κ α : Type} [DecidableEq κ] (k : κ) (v : α)
    (l : List (κ × α)) (h : (lookupKV k l).isSome) :
    (setKV k v l).map Prod.fst = l.map Prod.fst := by
  induction l with
  | nil => simp [lookupKV] at h
  | cons e rest ih =>
    obtain ⟨k2, v2⟩ := e
    by_cases h2 : k2 = k
    · simp [setKV, h2]
    · simp only [lookupKV, if_pos, if_neg h2] at h
      simp [setKV, h2, ih h]

theorem addToGroup_keys_nodup (c : String) (r : EncRecord)
    (g : List (String × List EncRecord)) (hnd : (g.map Prod.fst).Nodup) :
    ((addToGroup c r g).map Prod.fst).Nodup := by
  unfold addToGroup
  cases hg : lookupKV c g with
  | some l =>
    rw [setKV_keys c _ g (by simp [hg])]
    exact hnd
  | none =>
    rw [List.map_append]
    simp only [List.map_cons, List.map_nil]
    apply List.Nodup.append hnd (by simp)
    intro x hx hx2
    simp at hx2
    subst hx2
    exact (lookupKV_none_iff x g).mp hg hx

theorem groupFold_preserve (rs : List EncRecord) :
    ∀ (g g2 : List (String × List EncRecord)) (c : String) (l : List EncRecord),
      rs.foldlM cptGroupStep g = .ok g2 → lookupKV c g = some l →
      ∃ l2, lookupKV c g2 = some l2 ∧ ∀ x ∈ l, x ∈ l2 := by
  induction rs with
  | nil =>
    intro g g2 c l hfold hl
    rw [List.foldlM_nil] at hfold
    cases hfold
    exact ⟨l, hl, fun x h => h⟩
  | cons r rs ih =>
    intro g g2 c l hfold hl
    rw [List.foldlM_cons] at hfold
    cases hr : recCollection r with
    | none =>
      rw [cptGroupStep, hr] at hfold
      exact Except.noConfusion hfold
    | some c2 =>
      rw [cptGroupStep, hr] at hfold
      have hfold2 : rs.foldlM cptGroupStep (addToGroup c2 r g) = .ok g2 := hfold
      have hl2 : ∃ l2, lookupKV c (addToGroup c2 r g) = some l2 ∧ ∀ x ∈ l, x ∈ l2 := by
        rw [addToGroup_lookup]
        by_cases h : c = c2
        · subst h
          rw [hl]
          exact ⟨l ++ [r], by simp, fun x hx => List.mem_append_left _ hx⟩
        · rw [if_neg h]
          exact ⟨l, hl, fun x hx => hx⟩
      obtain ⟨l2, hla, hlb⟩ := hl2
      obtain ⟨l3, hl3a, hl3b⟩ := ih _ _ c l2 hfold2 hla
      exact ⟨l3, hl3a, fun x hx => hl3b x (hlb x hx)⟩

theorem cptGroupDocs_mem (rs : List EncRecord) :
    ∀ (g g2 : List (String × List EncRecord)),
      rs.foldlM cptGroupStep g = .ok g2 →
      ∀ r ∈ rs, ∃ c l, recCollection r = some c ∧ lookupKV c g2 = some l ∧ r ∈ l := by
  induction rs with
  | nil => intro g g2 _ r h; simp at h
  | cons r2 rs ih =>
    intro g g2 hfold r hmem
    rw [List.foldlM_cons] at hfold
    cases hr : recCollection r2 with
    | none =>
      rw [cptGroupStep, hr] at hfold
      exact Except.noConfusion hfold
    | some c2 =>
      rw [cptGroupStep, hr] at hfold
      have hfold2 : rs.foldlM cptGroupStep (addToGroup c2 r2 g) = .ok g2 := hfold
      rcases List.mem_cons.mp hmem with h1 | h1
      · subst h1
        have hself : ∃ l, lookupKV c2 (addToGroup c2 r g) = some l ∧ r ∈ l := by
          rw [addToGroup_lookup]
          simp
        obtain ⟨l, hla, hlb⟩ := hself
        obtain ⟨l2, hl2a, hl2b⟩ := groupFold_preserve rs _ _ c2 l hfold2 hla
        exact ⟨c2, l2, hr, hl2a, hl2b r hlb⟩
      · exact ih _ _ hfold2 r h1

theorem groupFold_nodup (rs : List EncRecord) :
    ∀ (g : List (String × List EncRecord)) (S : List String)
      (g2 : List (String × List EncRecord)),
      (rs.map (fun r => r.id)).Nodup →
      (∀ c2 l2, lookupKV c2 g = some l2 → ∀ x ∈ l2, x.id ∈ S) →
      (∀ i ∈ S, i ∉ rs.map (fun r => r.id)) →
      (g.map Prod.fst).Nodup →
      (∀ c2 l2, lookupKV c2 g = some l2 → (l2.map (fun x => x.id)).Nodup) →
      rs.foldlM cptGroupStep g = .ok g2 →
      (g2.map Prod.fst).Nodup ∧
        (∀ c2 l2, lookupKV c2 g2 = some l2 → (l2.map (fun x => x.id)).Nodup) := by
  induction rs with
  | nil =>
    intro g S g2 _ _ _ hknd hlnd hfold
    rw [List.foldlM_nil] at hfold
    cases hfold
    exact ⟨hknd, hlnd⟩
  | cons r rs ih =>
    intro g S g2 hnd hS hdisj hknd hlnd hfold
    simp only [List.map_cons, List.nodup_cons] at hnd
    rw [List.foldlM_cons] at hfold
    cases hr : recCollection r with
    | none =>
      rw [cptGroupStep, hr] at hfold
      exact Except.noConfusion hfold
    | some c =>
      rw [cptGroupStep, hr] at hfold
      have hfold2 : rs.foldlM cptGroupStep (addToGroup c r g) = .ok g2 := hfold
      apply ih (addToGroup c r g) (r.id :: S) g2 hnd.2
      · intro c2 l2 hl2 x hx
        rw [addToGroup_lookup] at hl2
        by_cases hc : c2 = c
        · rw [if_pos hc] at hl2
          cases hl2
          rcases List.mem_append.mp hx with h2 | h2
          · cases hg : lookupKV c g with
            | none => rw [hg] at h2; simp at h2
            | some l3 =>
              rw [hg] at h2
              exact List.mem_cons_of_mem _ (hS c l3 hg x h2)
          · simp at h2
            subst h2
            exact List.mem_cons_self _ _
        · rw [if_neg hc] at hl2
          exact List.mem_cons_of_mem _ (hS c2 l2 hl2 x hx)
      · intro i hi
        rcases List.mem_cons.mp hi with h2 | h2
        · subst h2
          exact hnd.1
        · intro h3
          exact hdisj i h2 (List.mem_cons_of_mem _ h3)
      · exact addToGroup_keys_nodup c r g hknd
      · intro c2 l2 hl2
        rw [addToGroup_lookup] at hl2
        by_cases hc : c2 = c
        · rw [if_pos hc] at hl2
          cases hl2
          rw [List.map_append]
          simp only [List.map_cons, List.map_nil]
          apply List.Nodup.append ?_ (by simp)
          · intro x hx hx2
            simp at hx2
            cases hg : lookupKV c g with
            | none => rw [hg] at hx; simp at hx
            | some l3 =>
              rw [hg] at hx
              simp at hx
              obtain ⟨y, hy, hy2⟩ := hx
              have : y.id ∈ S := hS c l3 hg y hy
              rw [hy2, hx2] at this
              exact hdisj r.id this (List.mem_cons_self _ _)
          · cases hg : lookupKV c g with
            | none => simp [hg]
            | some l3 =>
              simp only [hg, Option.getD_some]
              exact hlnd c l3 hg
        · rw [if_neg hc] at hl2
          exact hlnd c2 l2 hl2
      · exact hfold2

theorem cptWriteBody_eq_err (s : CptStrategy) (db : CptDb) (b : Batch)
    (now : Nat) (e : DbErr) (hg : cptGroupDocs b.docs = .error e) :
    cptWriteBody s db b now = (db, s.createdTables, some e) := by
  unfold cptWriteBody
  rw [hg]

theorem cptWriteBody_eq_ok (s : CptStrategy) (db : CptDb) (b : Batch)
    (now : Nat) (groups : List (String × List EncRecord))
    (hg : cptGroupDocs b.docs = .ok groups) :
    cptWriteBody s db b now =
      ((b.meta.foldl cptWriteMetaStep
          ((groups.foldl (fun st grp => cptWriteGroup s st grp now)
              (db, s.createdTables, false)).1,
           (groups.foldl (fun st grp => cptWriteGroup s st grp now)
              (db, s.createdTables, false)).2.2)).1,
       (groups.foldl (fun st grp => cptWriteGroup s st grp now)
          (db, s.createdTables, false)).2.1,
       if (b.meta.foldl cptWriteMetaStep
            ((groups.foldl (fun st grp => cptWriteGroup s st grp now)
                (db, s.createdTables, false)).1,
             (groups.foldl (fun st grp => cptWriteGroup s st grp now)
                (db, s.createdTables, false)).2.2)).2
       then some DbErr.ioError else none) := by
  unfold cptWriteBody
  rw [hg]

theorem cptWriteRecords_tx (s : CptStrategy) (db : CptDb) (b : Batch)
    (now : Nat) (hdt : s.disableTransactions = false) :
    cptWriteRecords s db b now =
      (match (cptWriteBody s db b now).2.2 with
       | none => cptWriteBody s db b now
       | some e => (db, (cptWriteBody s db b now).2.1, some e)) := by
  unfold cptWriteRecords
  rw [hdt]
  rfl

theorem cptWriteBody_inventory (s : CptStrategy) (db : CptDb) (b : Batch)
    (now : Nat) (hnd : (b.docs.map (fun r => r.id)).Nodup)
    (hok : (cptWriteBody s db b now).2.2 = none) :
    ∀ r ∈ b.docs, ∃ c, recCollection r = some c ∧
      lookupKV (c, r.id) (cptWriteBody s db b now).1.invTbl
        = some ⟨versionOf (encryptRecordForCollection s r c), now⟩ := by
  intro r hmem
  cases hg : cptGroupDocs b.docs with
  | error e =>
    rw [cptWriteBody_eq_err s db b now e hg] at hok
    exact Option.noConfusion hok
  | ok groups =>
    rw [cptWriteBody_eq_ok s db b now groups hg] at hok ⊢
    simp only [] at hok ⊢
    have hm2 : (b.meta.foldl cptWriteMetaStep
        ((groups.foldl (fun st grp => cptWriteGroup s st grp now)
            (db, s.createdTables, false)).1,
         (groups.foldl (fun st grp => cptWriteGroup s st grp now)
            (db, s.createdTables, false)).2.2)).2 = false := by
      by_cases h2 : (b.meta.foldl cptWriteMetaStep
          ((groups.foldl (fun st grp => cptWriteGroup s st grp now)
              (db, s.createdTables, false)).1,
           (groups.foldl (fun st grp => cptWriteGroup s st grp now)
              (db, s.createdTables, false)).2.2)).2 = true
      · rw [if_pos h2] at hok
        exact Option.noConfusion hok
      · exact Bool.not_eq_true _ ▸ h2
    have hw2 : (groups.foldl (fun st grp => cptWriteGroup s st grp now)
        (db, s.createdTables, false)).2.2 = false := by
      cases h2 : (groups.foldl (fun st grp => cptWriteGroup s st grp now)
          (db, s.createdTables, false)).2.2 with
      | false => rfl
      | true =>
        have := cptMetaFold_flag_mono b.meta
          ((groups.foldl (fun st grp => cptWriteGroup s st grp now)
              (db, s.createdTables, false)).1,
           (groups.foldl (fun st grp => cptWriteGroup s st grp now)
              (db, s.createdTables, false)).2.2) h2
        rw [this] at hm2
        exact Bool.noConfusion hm2
    obtain ⟨c, l, hrc, hlg, hrl⟩ := cptGroupDocs_mem b.docs [] groups hg r hmem
    obtain ⟨hknd, hlnd⟩ := groupFold_nodup b.docs [] [] groups hnd
      (fun c2 l2 h => by simp [lookupKV] at h)
      (fun i h => by simp at h)
      (by simp)
      (fun c2 l2 h => by simp [lookupKV] at h)
      hg
    refine ⟨c, hrc, ?_⟩
    rw [cptMetaFold_invTbl]
    exact cptGroupFold_establish s now groups (db, s.createdTables, false)
      c l r hlg hrl hknd hlnd hw2

theorem defInsertDoc_meta (db : DefDb) (r : EncRecord) :
    (defInsertDoc db r).1.meta = db.meta := by
  unfold defInsertDoc
  split <;> simp

theorem defDocsFold_meta (s : DefStrategy) (l : List EncRecord) :
    ∀ st : DefDb × Bool, ((l.foldl (defWriteDocStep s) st).1).meta = st.1.meta := by
  induction l with
  | nil => intro st; rfl
  | cons r l ih =>
    intro st
    rw [List.foldl_cons, ih]
    exact defInsertDoc_meta st.1 (maybeEncryptRecord s r)

/-!
Claim theorems.
-/

/-- C3: every public coordinator operation except initialize and close
(writeRecords, readRecord, readAllRecords, readRecordsBulk, deleteRecord,
updateInventory, readInventory, deleteDatabase) fails fast with the state
error whenever the coordinator is not ready (before initialization
completes) or no longer holds its adapter (after close), for EVERY database
state and before any database access: the failing result is the not-ready
error with the database left untouched and zero database calls.  Moreover a
freshly constructed coordinator is not ready, and after close the guard
always fails. -/
theorem C3_lifecycle_guard :
    (∀ (st : Storage) (db : DefDb) (b : Batch) (sn id c d op : String)
        (v : JsonVal) (ids : List String),
      ensureReadyB st = false →
        storageWriteRecords st db b = (db, some .notReady) ∧
        storageReadRecord st db sn id = .error .notReady ∧
        storageReadAllRecords st db sn = .error .notReady ∧
        storageReadRecordsBulk st db sn ids = (.error .notReady, 0) ∧
        storageDeleteRecord st db sn id = (db, some .notReady) ∧
        storageUpdateInventory st db c d v op = (db, some .notReady) ∧
        storageReadInventory st db = .error .notReady ∧
        storageDeleteDatabase st db = (db, some .notReady)) ∧
    (∀ st : Storage, ensureReadyB (closeStorage st) = false) ∧
    (∀ s : DefStrategy, ensureReadyB (mkStorage s) = false) := by
  refine ⟨?_, ?_, ?_⟩
  · intro st db b sn id c d op v ids h
    refine ⟨?_, ?_, ?_, ?_, ?_, ?_, ?_, ?_⟩ <;>
      simp [storageWriteRecords, storageReadRecord, storageReadAllRecords,
        storageReadRecordsBulk, storageDeleteRecord, storageUpdateInventory,
        storageReadInventory, storageDeleteDatabase, h]
  · intro st
    cases hr : st.ready <;> cases ha : st.adapterPresent <;>
      simp [closeStorage, ensureReadyB, hr, ha]
  · intro s
    rfl

/-- C3 witness: the guard rejects each operation on a freshly constructed
(not yet initialized) coordinator over a concrete database. -/
theorem C3_lifecycle_guard_witness :
    storageWriteRecords stFresh dbTwoUsers { docs := [rUser1] }
        = (dbTwoUsers, some .notReady) ∧
    storageReadRecord stFresh dbTwoUsers "users" "users/u1" = .error .notReady ∧
    storageReadAllRecords stFresh dbTwoUsers "users" = .error .notReady ∧
    storageReadRecordsBulk stFresh dbTwoUsers "users" ["users/u1"]
        = (.error .notReady, 0) ∧
    storageDeleteRecord stFresh dbTwoUsers "users" "users/u1"
        = (dbTwoUsers, some .notReady) ∧
    storageUpdateInventory stFresh dbTwoUsers "users" "u1" (.num 1) "add"
        = (dbTwoUsers, some .notReady) ∧
    storageReadInventory stFresh dbTwoUsers = .error .notReady ∧
    storageDeleteDatabase stFresh dbTwoUsers = (dbTwoUsers, some .notReady) :=
  C3_lifecycle_guard.1 stFresh dbTwoUsers { docs := [rUser1] }
    "users" "users/u1" "users" "u1" "add" (.num 1) ["users/u1"] (by rfl)

/-- C10: when the underlying strategy read fails with an error, the
coordinator's readRecord surfaces the null result, exactly as for a record
that does not exist: at the public readRecord interface an I/O failure is
indistinguishable from not-found and no error reaches the caller. -/
theorem C10_read_error_null (st : Storage) (db : DefDb) (sn id : String)
    (hready : ensureReadyB st = true) (hfail : db.connFail = true) :
    storageReadRecord st db sn id = .ok none ∧
    storageReadRecord st { docs := [], meta := [] } sn id = .ok none := by
  constructor
  · unfold storageReadRecord
    rw [hready]
    simp only [if_true]
    cases hk : resolveStore sn with
    | meta => simp [defReadRecord, hk, hfail]
    | docs => simp [defReadRecord, hk, defReadDoc, hfail, Except.map]
  · unfold storageReadRecord
    rw [hready]
    simp only [if_true]
    cases hk : resolveStore sn with
    | meta => simp [defReadRecord, hk, lookupKV]
    | docs => simp [defReadRecord, hk, defReadDoc, lookupKV, Except.map]

/-- C10 witness: on a ready coordinator whose connection is broken, a read
returns the null result, as on an empty store. -/
theorem C10_read_error_null_witness :
    storageReadRecord stReady { connFail := true } "users" "users/u1" = .ok none ∧
    storageReadRecord stReady { docs := [], meta := [] } "users" "users/u1"
      = .ok none :=
  C10_read_error_null stReady { connFail := true } "users" "users/u1"
    (by rfl) (by rfl)

/-- C6: the claim says any operation other than add/update/remove fails
with an invalid-argument error leaving the inventory unchanged.  The
Table-Per-Collection (table) implementation does exactly that, but the
Shared-Table (JSON) implementation has no invalid-operation branch:
evaluated at the failing input (operation "bogus" against a stored empty
inventory), it reports success and writes the inventory back with a
freshly created empty "users" collection key. -/
theorem C6_invalid_op_behavior :
    defUpdateInventoryItem { meta := [("inventory", .inv ⟨[]⟩)] } "users" "u1"
        (.num 1) "bogus"
      = ({ meta := [("inventory", .inv ⟨[("users", [])]⟩)] }, none) ∧
    cptUpdateInventoryItem {} "users" "u1" (.num 1) "bogus" 7
      = ({}, some .invalidArg) := by
  exact ⟨by decide, by decide⟩

/-- C7 counterexample: with an inventory row stored, the Table-Per-
Collection initializeInventory does not return the stored inventory (which
readInventory exposes); it returns a fresh empty structure. -/
theorem C7_counterexample :
    cptReadInventory cdbInvOne
      = .ok ⟨"inventory", ⟨[("users", [("u1", .num 5)])]⟩⟩ ∧
    cptInitializeInventory cdbInvOne = .ok ⟨"inventory", ⟨[]⟩⟩ ∧
    (⟨[("users", [("u1", .num 5)])]⟩ : InvDoc) ≠ ⟨[]⟩ := by
  exact ⟨by rfl, by rfl, by decide⟩

/-- C7 amended: under the JSON representation initializeInventory creates
an empty inventory when none is stored, returns the stored one unchanged
otherwise, and repeated calls are idempotent, never overwriting stored
data.  The Table-Per-Collection initializeInventory performs no database
access and never modifies the stored inventory, but always returns a fresh
empty inventory structure regardless of what is stored (table creation
lives in initializeSchema). -/
theorem C7_initializeInventory_amended :
    (∀ db : DefDb, db.connFail = false → lookupKV "inventory" db.meta = none →
      defInitializeInventory db
        = .ok (⟨"inventory", .inv {}⟩,
            { db with meta := setKV "inventory" (.inv {}) db.meta })) ∧
    (∀ (db : DefDb) (mv : MetaVal), db.connFail = false →
      lookupKV "inventory" db.meta = some mv →
      defInitializeInventory db = .ok (⟨"inventory", mv⟩, db)) ∧
    (∀ (db db2 : DefDb) (r : DefInvResult), db.connFail = false →
      defInitializeInventory db = .ok (r, db2) →
      defInitializeInventory db2 = .ok (r, db2)) ∧
    (∀ db : CptDb, cptInitializeInventory db = .ok ⟨"inventory", ⟨[]⟩⟩) := by
  refine ⟨?_, ?_, ?_, ?_⟩
  · intro db hcf hnone
    simp [defInitializeInventory, hcf, hnone]
  · intro db mv hcf hsome
    simp [defInitializeInventory, hcf, hsome]
  · intro db db2 r hcf hinit
    unfold defInitializeInventory at hinit ⊢
    rw [hcf] at hinit
    simp only [Bool.false_eq_true, if_false] at hinit
    cases hsome : lookupKV "inventory" db.meta with
    | some mv =>
      rw [hsome] at hinit
      simp only [Except.ok.injEq, Prod.mk.injEq] at hinit
      obtain ⟨hr, hdb2⟩ := hinit
      subst hdb2
      rw [hcf]
      simp [hsome, hr]
    | none =>
      rw [hsome] at hinit
      simp only [Except.ok.injEq, Prod.mk.injEq] at hinit
      obtain ⟨hr, hdb2⟩ := hinit
      subst hdb2
      simp only [hcf, Bool.false_eq_true, if_false]
      rw [show lookupKV "inventory" (setKV "inventory" (MetaVal.inv {}) db.meta)
        = some (.inv {}) from lookupKV_setKV_self _ _ _]
      simp [hr]
  · intro db
    rfl

/-- C7 witness: on a database storing an inventory the JSON
initializeInventory returns it unchanged; the second call after a fresh
creation is idempotent; the table variant returns the empty structure. -/
theorem C7_initializeInventory_amended_witness :
    defInitializeInventory dbInvOne
      = .ok (⟨"inventory", .inv ⟨[("users", [("u1", .num 2)])]⟩⟩, dbInvOne) ∧
    cptInitializeInventory cdbInvTwo = .ok ⟨"inventory", ⟨[]⟩⟩ :=
  ⟨C7_initializeInventory_amended.2.1 dbInvOne
      (.inv ⟨[("users", [("u1", .num 2)])]⟩) (by rfl) (by rfl),
   C7_initializeInventory_amended.2.2.2 cdbInvTwo⟩

/-- C8: after updateInventoryItem(collection, docId, version, remove) the
inventory no longer lists (collection, docId).  Under the JSON
representation the written-back document never keeps an emptied collection
key (removing the last doc of a collection deletes the key), and untouched
collections are preserved; under the table representation the single row is
deleted with every other row preserved (no collapse). -/
theorem C8_remove_inventory :
    (∀ (db : DefDb) (collection docId : String) (version : JsonVal) (d : InvDoc),
      db.connFail = false →
      lookupKV "inventory" db.meta = some (.inv d) →
      ∃ cols2,
        defUpdateInventoryItem db collection docId version "remove"
          = ({ db with meta := setKV "inventory" (.inv ⟨cols2⟩) db.meta }, none) ∧
        (∀ m, lookupKV collection cols2 = some m →
          lookupKV docId m = none ∧ m ≠ []) ∧
        (∀ c2, c2 ≠ collection → lookupKV c2 cols2 = lookupKV c2 d.collections)) ∧
    (∀ (db : CptDb) (c d : String) (v : JsonVal) (now : Nat),
      db.connFail = false →
      cptUpdateInventoryItem db c d v "remove" now
          = ({ db with invTbl := eraseKV (c, d) db.invTbl }, none) ∧
      lookupKV (c, d) (eraseKV (c, d) db.invTbl) = none ∧
      (∀ k, k ≠ (c, d) → lookupKV k (eraseKV (c, d) db.invTbl)
        = lookupKV k db.invTbl)) := by
  constructor
  · intro db collection docId version d hcf hinv
    unfold defUpdateInventoryItem defReadInventory
    rw [hcf]
    simp only [Bool.false_eq_true, if_false]
    rw [hinv]
    simp only [collectionsOf]
    set cols0 := d.collections with hcols0
    set cols1 := (if (lookupKV collection cols0).isNone
      then setKV collection [] cols0 else cols0) with hcols1
    set m := eraseKV docId ((lookupKV collection cols1).getD []) with hm
    refine ⟨if m.isEmpty then eraseKV collection cols1 else setKV collection m cols1,
      ?_, ?_, ?_⟩
    · simp only [String.reduceEq, Bool.or_self, if_false, ite_false, hinv,
        Option.isSome_some, if_true]
      rfl
    · intro m2 hm2
      by_cases hme : m.isEmpty
      · rw [if_pos hme] at hm2
        rw [lookupKV_eraseKV_self] at hm2
        exact Option.noConfusion hm2
      · rw [if_neg hme] at hm2
        rw [lookupKV_setKV_self] at hm2
        cases hm2
        constructor
        · exact lookupKV_eraseKV_self docId _
        · intro h2
          rw [h2] at hme
          exact hme rfl
    · intro c2 hc2
      by_cases hme : m.isEmpty
      · rw [if_pos hme]
        rw [lookupKV_eraseKV_ne _ (Ne.symm hc2)]
        by_cases hpres : (lookupKV collection cols0).isNone
        · rw [hcols1, if_pos hpres]
          exact lookupKV_setKV_ne _ _ (Ne.symm hc2)
        · rw [hcols1, if_neg hpres]
      · rw [if_neg hme]
        rw [lookupKV_setKV_ne _ _ (Ne.symm hc2)]
        by_cases hpres : (lookupKV collection cols0).isNone
        · rw [hcols1, if_pos hpres]
          exact lookupKV_setKV_ne _ _ (Ne.symm hc2)
        · rw [hcols1, if_neg hpres]
  · intro db c d v now hcf
    refine ⟨?_, lookupKV_eraseKV_self _ _, fun k hk => lookupKV_eraseKV_ne _ (Ne.symm hk)⟩
    unfold cptUpdateInventoryItem
    rw [hcf]
    simp

/-- C8 witness: removing users/u1 from a two-document inventory under both
representations. -/
theorem C8_remove_inventory_witness :
    (∃ cols2,
      defUpdateInventoryItem dbInvTwo "users" "u1" (.num 1) "remove"
        = ({ dbInvTwo with
              meta := setKV "inventory" (.inv ⟨cols2⟩) dbInvTwo.meta }, none) ∧
      (∀ m, lookupKV "users" cols2 = some m →
        lookupKV "u1" m = none ∧ m ≠ []) ∧
      (∀ c2, c2 ≠ "users" →
        lookupKV c2 cols2
          = lookupKV c2 ([("users", [("u1", .num 1), ("u2", .num 2)])]))) ∧
    (cptUpdateInventoryItem cdbInvTwo "users" "u1" (.num 1) "remove" 9
        = ({ cdbInvTwo with
              invTbl := eraseKV ("users", "u1") cdbInvTwo.invTbl }, none) ∧
      lookupKV ("users", "u1") (eraseKV ("users", "u1") cdbInvTwo.invTbl) = none ∧
      (∀ k, k ≠ ("users", "u1") →
        lookupKV k (eraseKV ("users", "u1") cdbInvTwo.invTbl)
          = lookupKV k cdbInvTwo.invTbl)) :=
  ⟨C8_remove_inventory.1 dbInvTwo "users" "u1" (.num 1)
      ⟨[("users", [("u1", .num 1), ("u2", .num 2)])]⟩ (by rfl) (by rfl),
   C8_remove_inventory.2 cdbInvTwo "users" "u1" (.num 1) 9 (by rfl)⟩

/-- C9 counterexample: a pool with two connections, fresh counters, no
borrowed connection and exactly two pending requests has health score 80
and is reported unhealthy by the code, although none of the claim's three
conditions (score below the floor, zero connections, pending exceeding the
connection count) holds: the code already reports unhealthy when pending
merely equals the connection count. -/
theorem C9_counterexample :
    isHealthy poolPending2 = false ∧
    ¬(healthScore poolPending2 < 80 ∨ poolPending2.size = 0 ∨
      poolPending2.pending > poolPending2.size) := by
  constructor
  · norm_num [isHealthy, healthScore, validationScore, acquisitionScore,
      utilizationScore, poolPending2, round_eq]
  · norm_num [healthScore, validationScore, acquisitionScore,
      utilizationScore, poolPending2, round_eq]

/-- C9 amended: getStats reports isHealthy false exactly when the health
score is below the floor of 80, or the pool holds zero connections, or the
number of pending requests is at least (equals or exceeds) the number of
connections; the score combines validation success rate, acquisition
success rate and distance of utilization from 50%. -/
theorem C9_isHealthy_iff (p : PoolState) :
    isHealthy p = false ↔
      (healthScore p < 80 ∨ p.size = 0 ∨ p.size ≤ p.pending) := by
  unfold isHealthy
  simp only [Bool.and_eq_false_iff, decide_eq_false_iff_not, not_le, not_lt]
  omega

/-- C4 counterexample: a decryption callback pair that is the exact inverse
of the encryption pair (on every value and every payload), yet the round
trip loses the payload: encrypting the empty payload yields the empty
ciphertext string, which the decryption path treats as falsy and skips, so
the decrypted record has no payload at all instead of the original empty
one. -/
theorem C4_counterexample :
    (∀ v, decVgood (encVgood v) = v) ∧
    (∀ q, decPbad (encPbad q) = q) ∧
    rEmpty.payload = some [] ∧
    (decryptRecordForCollection sBad
      (encryptRecordForCollection sBad rEmpty "users") "users").payload = none :=
  ⟨decVgood_encVgood, decPbad_encPbad, rfl, rfl⟩

/-- C4 (amended): decrypting the result of encrypting a payload yields the
original payload exactly (same field set, same values, with JS key order
possibly moved for re-added fields), in whole-payload mode and in
field-level mode (including payloads where none of the named fields are
present), under the hypotheses that the decryption callback is the inverse
of the encryption callback AND that the encryption callback never returns
the empty string for a whole payload (otherwise the falsy-ciphertext branch
skips decryption).  The same holds for the Shared-Table strategy's
whole-payload maybeEncrypt/maybeDecrypt pair. -/
theorem C4_encrypt_decrypt_roundtrip :
    (∀ (s : CptStrategy) (cb : EncCallback) (dcb : DecCallback) (col : String)
        (r : EncRecord) (p : Payload),
      s.useEncryption = true →
      s.encryptionCallback = some cb →
      s.decryptionCallback = some dcb →
      (∀ v, dcb.onVal (cb.onVal v) = v) →
      (∀ q, dcb.onPayload (cb.onPayload q) = q) →
      (∀ q, cb.onPayload q ≠ "") →
      r.payload = some p →
      ∃ q, (decryptRecordForCollection s
              (encryptRecordForCollection s r col) col).payload = some q ∧
        mapEquiv q p) ∧
    (∀ (s : DefStrategy) (cb : EncCallback) (dcb : DecCallback)
        (r : EncRecord) (p : Payload),
      s.useEncryption = true →
      s.encryptionCallback = some cb →
      s.decryptionCallback = some dcb →
      (∀ q, dcb.onPayload (cb.onPayload q) = q) →
      (∀ q, cb.onPayload q ≠ "") →
      r.payload = some p →
      (maybeDecryptRecord s (maybeEncryptRecord s r)).payload = some p) := by
  constructor
  · intro s cb dcb col r p hu hE hD hV hP hNE hpay
    by_cases hef : ((lookupKV col s.collectionConfig).getD {}).encryptedFields = []
    · have henc : encryptRecordForCollection s r col
          = { id := r.id, collection := some col,
              encrypted_payload := some (cb.onPayload p) } := by
        unfold encryptRecordForCollection
        rw [hu, hE]
        simp [hef, hpay]
      rw [henc]
      refine ⟨p, ?_, fun k => rfl⟩
      unfold decryptRecordForCollection
      rw [hu, hD]
      simp [truthyStr, hNE p, hP p]
    · have henc : encryptRecordForCollection s r col
          = { id := r.id, collection := some col,
              payload := some
                ((((lookupKV col s.collectionConfig).getD {}).encryptedFields.foldl
                  (encFieldStep cb) (p, [])).1),
              encrypted_fields := some
                ((((lookupKV col s.collectionConfig).getD {}).encryptedFields.foldl
                  (encFieldStep cb) (p, [])).2) } := by
        unfold encryptRecordForCollection
        rw [hu, hE]
        simp [hef, hpay]
      rw [henc]
      refine ⟨_, ?_, cptFieldRoundtrip cb dcb hV
        ((lookupKV col s.collectionConfig).getD {}).encryptedFields p⟩
      unfold decryptRecordForCollection
      rw [hu, hD]
      simp [truthyStr]
  · intro s cb dcb r p hu hE hD hP hNE hpay
    have henc : maybeEncryptRecord s r
        = { id := r.id, encrypted_payload := some (cb.onPayload p) } := by
      unfold maybeEncryptRecord
      rw [hu, hE]
      simp [hpay]
    rw [henc]
    unfold maybeDecryptRecord
    rw [hu, hD]
    simp [truthyStr, hNE p, hP p]

/-- C4 witness: the round trip at concrete invertible never-empty callbacks,
for field-level mode (a record carrying a configured encrypted field),
whole-payload mode, and the Shared-Table pair. -/
theorem C4_encrypt_decrypt_roundtrip_witness :
    (∃ q, (decryptRecordForCollection sGood
            (encryptRecordForCollection sGood rAnn "users") "users").payload
          = some q ∧
      mapEquiv q [("collection", .str "users"), ("name", .str "Ann"),
                  ("password", .str "pw")]) ∧
    (∃ q, (decryptRecordForCollection sGoodWhole
            (encryptRecordForCollection sGoodWhole rUserV5 "users") "users").payload
          = some q ∧
      mapEquiv q [("collection", .str "users"), ("v", .num 5)]) ∧
    (maybeDecryptRecord sGoodDef (maybeEncryptRecord sGoodDef rUserV5)).payload
      = some [("collection", .str "users"), ("v", .num 5)] :=
  ⟨C4_encrypt_decrypt_roundtrip.1 sGood ⟨encVgood, encPgood⟩ ⟨decVgood, decPgood⟩
      "users" rAnn _ rfl rfl rfl decVgood_encVgood decPgood_encPgood
      encPgood_ne_empty rfl,
   C4_encrypt_decrypt_roundtrip.1 sGoodWhole ⟨encVgood, encPgood⟩
      ⟨decVgood, decPgood⟩ "users" rUserV5 _ rfl rfl rfl decVgood_encVgood
      decPgood_encPgood encPgood_ne_empty rfl,
   C4_encrypt_decrypt_roundtrip.2 sGoodDef ⟨encVgood, encPgood⟩
      ⟨decVgood, decPgood⟩ rUserV5 _ rfl rfl rfl decPgood_encPgood
      encPgood_ne_empty rfl⟩

theorem defReadRecordsBulk_docs_eq (s : DefStrategy) (db : DefDb)
    (ids : List String) (hcf : db.connFail = false)
    (hne : ids.isEmpty = false) (h2 : ∀ e ∈ db.docs, (e.2).id = e.1) :
    defReadRecordsBulk s db .docs ids
      = .ok ((db.docs.filter (fun e => ids.contains e.1)).map
          (fun e => outOfRec (decStep s e.2))) := by
  unfold defReadRecordsBulk
  rw [hne, hcf]
  simp only [Bool.false_eq_true, if_false]
  congr 1
  apply List.map_congr_left
  intro e he
  have he2 : e ∈ db.docs := List.mem_of_mem_filter he
  have hid : (decStep s e.2).id = e.1 := by
    rw [decStep_id]
    exact h2 e he2
  unfold outOfRec
  rw [hid]

/-- C5: readRecordsBulk agrees with issuing an individual readRecord per id
and aggregating the non-null results.  At the coordinator, an empty id list
yields the empty result with zero database calls; at the strategy, over a
well-formed store (primary-key table, rows storing their own key as id) the
native single-query bulk path returns exactly the records (as sets) that the
per-id fallback loop aggregates, and when the underlying reads fail both
paths fail with the same error. -/
theorem C5_bulk_read_equiv :
    (∀ (st : Storage) (db : DefDb) (sn : String),
      ensureReadyB st = true →
      storageReadRecordsBulk st db sn [] = (.ok [], 0)) ∧
    (∀ (s : DefStrategy) (db : DefDb) (ids : List String),
      db.connFail = false →
      (db.docs.map Prod.fst).Nodup →
      (∀ e ∈ db.docs, (e.2).id = e.1) →
      ∃ l rows, defReadRecordsBulk s db .docs ids = .ok l ∧
        readDocEach s db ids = .ok rows ∧
        (∀ o, o ∈ l ↔ ∃ r ∈ rows, outOfRec r = o)) ∧
    (∀ (s : DefStrategy) (db : DefDb) (ids : List String),
      db.connFail = true → ids ≠ [] →
      defReadRecordsBulk s db .docs ids = .error .ioError ∧
      readDocEach s db ids = .error .ioError) := by
  refine ⟨?_, ?_, ?_⟩
  · intro st db sn hready
    simp [storageReadRecordsBulk, hready]
  · intro s db ids hcf hnd h2
    cases hids : ids.isEmpty with
    | true =>
      have : ids = [] := List.isEmpty_iff.mp hids
      subst this
      exact ⟨[], [], by unfold defReadRecordsBulk; simp, rfl, by simp⟩
    | false =>
      obtain ⟨rows, hrows, hiff⟩ := readDocEach_mem s db hcf ids
      refine ⟨_, rows, defReadRecordsBulk_docs_eq s db ids hcf hids h2, hrows, ?_⟩
      intro o
      constructor
      · intro ho
        obtain ⟨e, he, heo⟩ := List.mem_map.mp ho
        obtain ⟨e1, e2⟩ := e
        have he2 : (e1, e2) ∈ db.docs := List.mem_of_mem_filter he
        have hc : ids.contains e1 = true := (List.mem_filter.mp he).2
        refine ⟨decStep s e2, ?_, heo⟩
        apply (hiff (decStep s e2)).mpr
        refine ⟨e1, by simpa using hc, ?_⟩
        unfold defReadDoc
        rw [hcf]
        simp only [Bool.false_eq_true, if_false]
        rw [mem_lookupKV hnd he2]
      · rintro ⟨r, hr, hro⟩
        obtain ⟨id, hid, hread⟩ := (hiff r).mp hr
        unfold defReadDoc at hread
        rw [hcf] at hread
        simp only [Bool.false_eq_true, if_false] at hread
        cases hlook : lookupKV id db.docs with
        | none => rw [hlook] at hread; exact Option.noConfusion (Except.ok.injEq .. ▸ hread)
        | some r0 =>
          rw [hlook] at hread
          have hr0 : r = decStep s r0 := by
            have := Except.ok.injEq .. ▸ hread
            exact (Option.some.injEq .. ▸ this).symm
          have hmem0 : (id, r0) ∈ db.docs := lookupKV_mem hlook
          apply List.mem_map.mpr
          refine ⟨(id, r0), ?_, ?_⟩
          · apply List.mem_filter.mpr
            exact ⟨hmem0, by simpa using hid⟩
          · rw [← hr0, hro]
  · intro s db ids hcf hne
    constructor
    · unfold defReadRecordsBulk
      rw [hcf]
      rw [show ids.isEmpty = false from by
        cases ids with
        | nil => exact absurd rfl hne
        | cons a l => rfl]
      rfl
    · cases ids with
      | nil => exact absurd rfl hne
      | cons id rest =>
        unfold readDocEach defReadDoc
        rw [hcf]
        simp

/-- C5 witness: the equivalence at a concrete two-row store queried with one
present and one absent id, the coordinator's zero-call empty case, and the
shared failure case. -/
theorem C5_bulk_read_equiv_witness :
    storageReadRecordsBulk stReady dbTwoUsers "users" [] = (.ok [], 0) ∧
    (∃ l rows,
      defReadRecordsBulk {} dbTwoUsers .docs ["users/u1", "users/u3"] = .ok l ∧
      readDocEach {} dbTwoUsers ["users/u1", "users/u3"] = .ok rows ∧
      (∀ o, o ∈ l ↔ ∃ r ∈ rows, outOfRec r = o)) ∧
    (defReadRecordsBulk {} { connFail := true } .docs ["users/u1"]
        = .error .ioError ∧
      readDocEach {} { connFail := true } ["users/u1"] = .error .ioError) :=
  ⟨C5_bulk_read_equiv.1 stReady dbTwoUsers "users" (by rfl),
   C5_bulk_read_equiv.2.1 {} dbTwoUsers ["users/u1", "users/u3"]
     (by rfl) (by decide) (by decide),
   C5_bulk_read_equiv.2.2 {} { connFail := true } ["users/u1"]
     (by rfl) (by simp)⟩

/-- C1 counterexample: the Shared-Table strategy's writeRecords runs without
any transaction: a two-record batch whose second INSERT statement fails
reports the batch as failed yet leaves the first row of the batch visible
(the store is not in its pre-batch state). -/
theorem C1_counterexample :
    defWriteRecords {} dbFail2 { docs := [rUser1, rUser2] }
      = ({ dbFail2 with docs := [("users/u1", rUser1)] }, some .ioError) ∧
    ({ dbFail2 with docs := [("users/u1", rUser1)] } : DefDb).docs ≠ dbFail2.docs :=
  ⟨by decide, by decide⟩

/-- C1 (amended): under the Table-Per-Collection strategy, when the caller
has not disabled transactions, the whole batch (row writes and inventory
upserts) executes inside a single transaction and on any failure partway the
whole batch rolls back: the database state afterwards is exactly the
pre-batch state.  The Shared-Table strategy, however, issues its batch
without a transaction, so a batch failing partway can leave earlier rows
visible, as the concrete failing batch shows. -/
theorem C1_transactional_writes :
    (∀ (s : CptStrategy) (db : CptDb) (b : Batch) (now : Nat) (e : DbErr),
      s.disableTransactions = false →
      (cptWriteRecords s db b now).2.2 = some e →
      (cptWriteRecords s db b now).1 = db) ∧
    defWriteRecords {} dbFail2 { docs := [rUser1, rUser2] }
      = ({ dbFail2 with docs := [("users/u1", rUser1)] }, some .ioError) := by
  constructor
  · intro s db b now e hdt herr
    rw [cptWriteRecords_tx s db b now hdt] at herr ⊢
    cases hbody : (cptWriteBody s db b now).2.2 with
    | none =>
      simp only [hbody] at herr
      exact Option.noConfusion herr
    | some e2 =>
      simp [hbody]
  · decide

/-- C1 witness: a Table-Per-Collection batch whose second INSERT fails rolls
back completely, leaving the database in its pre-batch state. -/
theorem C1_transactional_writes_witness :
    (cptWriteRecords {} cdbFail2 { docs := [rUser1, rUser2] } 7).1 = cdbFail2 :=
  C1_transactional_writes.1 {} cdbFail2 { docs := [rUser1, rUser2] } 7
    .ioError (by rfl) (by decide)

/-- C2 counterexample: (i) the Shared-Table strategy's writeRecords performs
no inventory update: writing a users doc succeeds while the stored inventory
document stays absent; (ii) under Table-Per-Collection with whole-payload
encryption enabled, the version recorded in the inventory is read from the
record after encryption, whose payload is gone, so a doc carrying version 5
is recorded with version 1. -/
theorem C2_counterexample :
    (defWriteRecords {} {} { docs := [rUserV5] }).2 = none ∧
    lookupKV "inventory" (defWriteRecords {} {} { docs := [rUserV5] }).1.meta
      = none ∧
    lookupKV ("users", "users/u1")
        (cptWriteRecords sWholeEnc {} { docs := [rUserV5] } 7).1.invTbl
      = some ⟨.num 1, 7⟩ ∧
    (JsonVal.num 1) ≠ .num 5 :=
  ⟨by decide, by decide, by decide, by decide⟩

/-- C2 (amended): under the Table-Per-Collection strategy every successful
writeRecords batch (with distinct record ids) upserts, for each doc record,
the inventory entry keyed by the record's collection tag and id; the version
stored is the one found in the record as written, i.e. after encryption —
payload.v when present and truthy, else 1 (in particular, whole-payload
encryption always records version 1).  The Shared-Table strategy's
writeRecords leaves the stored inventory document untouched for any batch
without meta records. -/
theorem C2_inventory_upsert :
    (∀ (s : CptStrategy) (db : CptDb) (b : Batch) (now : Nat),
      (b.docs.map (fun r => r.id)).Nodup →
      (cptWriteRecords s db b now).2.2 = none →
      ∀ r ∈ b.docs, ∃ c, recCollection r = some c ∧
        lookupKV (c, r.id) (cptWriteRecords s db b now).1.invTbl
          = some ⟨versionOf (encryptRecordForCollection s r c), now⟩) ∧
    (∀ (s : DefStrategy) (db : DefDb) (b : Batch),
      b.meta = [] →
      lookupKV "inventory" (defWriteRecords s db b).1.meta
        = lookupKV "inventory" db.meta) := by
  constructor
  · intro s db b now hnd hok r hmem
    by_cases hdt : s.disableTransactions = true
    · have heq : cptWriteRecords s db b now = cptWriteBody s db b now := by
        unfold cptWriteRecords
        rw [hdt]
        rfl
      rw [heq] at hok ⊢
      exact cptWriteBody_inventory s db b now hnd hok r hmem
    · have hdt2 : s.disableTransactions = false := by
        cases h2 : s.disableTransactions with
        | false => rfl
        | true => exact absurd h2 hdt
      rw [cptWriteRecords_tx s db b now hdt2] at hok ⊢
      cases hbody : (cptWriteBody s db b now).2.2 with
      | none =>
        simp only [hbody]
        exact cptWriteBody_inventory s db b now hnd hbody r hmem
      | some e2 =>
        simp only [hbody] at hok
        exact Option.noConfusion hok
  · intro s db b hmeta
    unfold defWriteRecords
    rw [hmeta]
    simp only [List.foldl_nil]
    rw [defDocsFold_meta]

/-- C2 witness: a successful whole-payload-encrypted batch upserts the
inventory entry for its doc record (with the post-encryption default
version), and a doc-only Shared-Table batch leaves the inventory row
untouched. -/
theorem C2_inventory_upsert_witness :
    (∃ c, recCollection rUserV5 = some c ∧
      lookupKV (c, rUserV5.id)
          (cptWriteRecords sWholeEnc {} { docs := [rUserV5] } 7).1.invTbl
        = some ⟨versionOf (encryptRecordForCollection sWholeEnc rUserV5 c), 7⟩) ∧
    lookupKV "inventory"
        (defWriteRecords {} dbInvOne { docs := [rUser1] }).1.meta
      = lookupKV "inventory" dbInvOne.meta :=
  ⟨C2_inventory_upsert.1 sWholeEnc {} { docs := [rUserV5] } 7
      (by decide) (by decide) rUserV5 (by decide),
   C2_inventory_upsert.2 {} dbInvOne { docs := [rUser1] } (by rfl)⟩
